import Mathlib

/- Verification of the Rubik's cube rotation engine of src/app/rubiks
   (core/cubeState.ts: CubeState, Cube, CubeData; util/math.ts).

   Modelling conventions, fixed once for the whole file:

   * The cube data is built with `size = 1` (`CubeData._size`), and every
     coordinate the program ever stores in an element is an integer multiple
     of `size / 2`.  Positions are embedded exactly as integers counting
     half-squares: a source coordinate `c` becomes the integer `2·c`.
     Normals are unit direction vectors and are embedded unscaled.  Every
     geometric comparison of the source — equality of coordinates, a dot
     product compared with 0, `distanceTo < 0.1` (equivalently
     `distSq < 1/100`, in doubled coordinates `distSq < 1/25`, written
     `25·distSq < 1`) — is invariant under this scaling and is translated
     exactly.
   * Angles are measured in right angles: a source angle of t radians is
     embedded as the rational `t / (π/2)`.  `rightAnglePI` becomes 1, a full
     circle becomes 4.  The cosine and sine of an integer number of right
     angles are the exact integers tabulated by `qcosInt` and `qsinInt`.
   * JavaScript mutation of the square meshes is embedded by explicit state
     passing on `List CubeElement`; a JavaScript crash (dereferencing
     `undefined`) is embedded as `none`. -/

/-- Three-component integer vector: a position in half-square units, or an
unscaled direction/normal vector. -/
@[ext]
structure Vec3 where
  x : ℤ
  y : ℤ
  z : ℤ
deriving DecidableEq

instance : Add Vec3 := ⟨fun a b => ⟨a.x + b.x, a.y + b.y, a.z + b.z⟩⟩

instance : Sub Vec3 := ⟨fun a b => ⟨a.x - b.x, a.y - b.y, a.z - b.z⟩⟩

instance : Neg Vec3 := ⟨fun a => ⟨-a.x, -a.y, -a.z⟩⟩

/-- Dot product of two vectors. -/
def dotV (a b : Vec3) : ℤ := a.x * b.x + a.y * b.y + a.z * b.z

/-- Squared Euclidean length (three.js `lengthSq`). -/
def normSq (a : Vec3) : ℤ := dotV a a

/-- Squared distance between two points (`distanceTo` squared). -/
def distSq (a b : Vec3) : ℤ := normSq (a - b)

/-- Embedding of three.js `Vector3.normalize`, which divides by the Euclidean
length.  Every vector the program normalizes is already a unit vector (a face
normal or a rotation axis, all kept among the six axis directions by the
invariants proved below), and there normalization is the identity.  On any
other input this integer model returns the zero vector as an explicit junk
value; such inputs are never reached from a reachable cube state. -/
def normalizeV (v : Vec3) : Vec3 := if normSq v = 1 then v else ⟨0, 0, 0⟩

/-- Embedding of three.js `Matrix4.makeRotationAxis(axis, t)` applied to a
vector by `applyMatrix4`, with `c = cos t`, `s = sin t` and `tc = 1 − c` (the
Rodrigues rotation matrix used by `rotatePlane2`, `rotatePlane`,
`rotateOnePlane` and `updateStateAfterRotate`).  The reconciliation step only
ever applies it with `t` an integer number of right angles, where `c` and `s`
are exact integers. -/
def makeRotationAxis (a : Vec3) (c s : ℤ) (v : Vec3) : Vec3 :=
  ⟨((1 - c) * a.x * a.x + c) * v.x + ((1 - c) * a.x * a.y - s * a.z) * v.y +
      ((1 - c) * a.x * a.z + s * a.y) * v.z,
    ((1 - c) * a.x * a.y + s * a.z) * v.x + ((1 - c) * a.y * a.y + c) * v.y +
      ((1 - c) * a.y * a.z - s * a.x) * v.z,
    ((1 - c) * a.x * a.z - s * a.y) * v.x + ((1 - c) * a.y * a.z + s * a.x) * v.y +
      ((1 - c) * a.z * a.z + c) * v.z⟩

/-- Exact cosine of `m` right angles. -/
def qcosInt (m : ℤ) : ℤ := if m % 4 = 0 then 1 else if m % 4 = 2 then -1 else 0

/-- Exact sine of `m` right angles. -/
def qsinInt (m : ℤ) : ℤ := if m % 4 = 1 then 1 else if m % 4 = 3 then -1 else 0

/-- Cosine/sine pair of an angle of `a` right angles.  The reconciliation step
only ever rotates by the snapped net angle, an exact integer number of right
angles (proved below); for non-integer `a`, where the true cosine is
irrational, the model returns a junk pair that is never reached. -/
def angleCS (a : ℚ) : ℤ × ℤ := if a.den = 1 then (qcosInt a.num, qsinInt a.num) else (0, 0)

/-- CubeElement (cubeData.ts): color, centre position, face normal and the
optional logo flag of one facelet. -/
structure CubeElement where
  color : String
  pos : Vec3
  normal : Vec3
  withLogo : Bool
deriving DecidableEq

/-- The default face colors of the CubeData constructor: top red, bottom
orange, left green, right blue, front yellow, back white. -/
def defaultColors : Fin 6 → String :=
  !["#FF0000", "#FFA500", "#008000", "#0000FF", "#FFFF00", "#FFFFFF"]

/-- The coordinates `-border, -border + size, …, border` of the generation
loops of initialFinishData, in half-square units: `border` doubles to `N − 1`
and the step `size` doubles to 2. -/
def gridCoords (N : ℕ) : List ℤ :=
  (List.range N).map (fun i : ℕ => 2 * (i : ℤ) - ((N : ℤ) - 1))

/-- initialFinishData (cubeData.ts): the deterministic solved layout of an
order-`N` cube.  Three coordinate double-loops push the interleaved face
pairs top/bottom (normal ±Y), left/right (normal ∓X) and front/back
(normal ±Z); the face-plane coordinate `border + size/2` doubles to `N`, and
the centre square of each face (`x === 0 && z === 0` etc.) carries the logo
flag. -/
def initialFinishData (N : ℕ) (colors : Fin 6 → String) : List CubeElement :=
  ((gridCoords N).flatMap fun x => (gridCoords N).flatMap fun z =>
    [⟨colors 0, ⟨x, (N : ℤ), z⟩, ⟨0, 1, 0⟩, decide (x = 0 ∧ z = 0)⟩,
     ⟨colors 1, ⟨x, -(N : ℤ), z⟩, ⟨0, -1, 0⟩, decide (x = 0 ∧ z = 0)⟩])
  ++ ((gridCoords N).flatMap fun y => (gridCoords N).flatMap fun z =>
    [⟨colors 2, ⟨-(N : ℤ), y, z⟩, ⟨-1, 0, 0⟩, decide (y = 0 ∧ z = 0)⟩,
     ⟨colors 3, ⟨(N : ℤ), y, z⟩, ⟨1, 0, 0⟩, decide (y = 0 ∧ z = 0)⟩])
  ++ ((gridCoords N).flatMap fun x => (gridCoords N).flatMap fun y =>
    [⟨colors 4, ⟨x, y, (N : ℤ)⟩, ⟨0, 0, 1⟩, decide (x = 0 ∧ y = 0)⟩,
     ⟨colors 5, ⟨x, y, -(N : ℤ)⟩, ⟨0, 0, -1⟩, decide (x = 0 ∧ y = 0)⟩])

/-- getTemPos (cubeState.ts): the square's position moved half a square
inward along its normalized normal; in half-square units the offset is one
unit. -/
def getTemPos (square : CubeElement) : Vec3 := square.pos - normalizeV square.normal

/-- The slice-membership test shared by rotatePlane2, rotatePlane and
rotateOnePlane: a square is in the rotating slice iff the vector from its
getTemPos reference point to the control square's is perpendicular (zero dot
product) to the rotation axis. -/
def inRotatePlane (controlSquare square : CubeElement) (axis : Vec3) : Bool :=
  decide (dotV (getTemPos controlSquare - getTemPos square) axis = 0)

/-- equalDirection (math.ts): `vec1.angleTo(vec2) < 0.1` radians.  three.js
`angleTo` takes the arccosine of the clamped cosine of the pair, so the test
is equivalent to requiring a positive dot product with
`cos angle > cos 0.1 = 0.9950042…`.  The irrational bound is replaced here by
`199/200 = 0.995`, squared and cross-multiplied into integers; the two tests
agree whenever the cosine lies outside (0.99500, 0.99501), in particular on
every pair of the six canonical normals (cosine in {−1, 0, 1}), the only
vectors the program ever passes in. -/
def equalDirection (vec1 vec2 : Vec3) : Bool :=
  decide (0 < dotV vec1 vec2 ∧ 199 ^ 2 * (normSq vec1 * normSq vec2) < 200 ^ 2 * dotV vec1 vec2 ^ 2)

/-- Truncation of a rational toward zero, as ECMAScript's `%` operator uses. -/
def truncQ (q : ℚ) : ℤ := Int.tdiv q.num (q.den : ℤ)

/-- The ECMAScript remainder `x % y`: `x − y · trunc (x / y)`, carrying the
sign of the dividend. -/
def jsMod (x y : ℚ) : ℚ := x - y * (truncQ (x / y) : ℚ)

/-- getNeededRotateAngle (cubeState.ts), in right-angle units (`rightAnglePI`
becomes 1): the remainder of the accumulated angle modulo one right angle is
taken; past the halfway point the slice snaps forward to the next boundary,
otherwise back to the previous one, and the sign of the accumulated angle is
preserved. -/
def getNeededRotateAngle (rotateAnglePI : ℚ) : ℚ :=
  let exceedAnglePI := jsMod |rotateAnglePI| 1
  let needRotateAnglePI := if 1 / 2 < exceedAnglePI then 1 - exceedAnglePI else -exceedAnglePI
  if 0 < rotateAnglePI then needRotateAnglePI else -needRotateAnglePI

/-- The reconciliation guard `Math.abs(angleRelative360PI) > 0.1` (radians) of
updateStateAfterRotate.  In right-angle units the bound is
`0.1 / (π/2) = 0.06366197…`; the rational lower approximation
`63661/1000000` is used here.  The two guards agree except for angles inside
(0.063661, 0.0636620) right angles, and the guard is only ever evaluated at
an integer number of right angles (0, or of absolute value at least 1). -/
def overAngleTolerance (a : ℚ) : Bool := decide (63661 / 1000000 < |a|)

/-- One iteration of the matching loop of updateStateAfterRotate: every
square of the active slice whose current normal and position match the
rotated clone of `a` within tolerance (`equalDirection` for the normal,
`distanceTo < 0.1` for the position, in doubled integer coordinates
`25·distSq < 1`) contributes its `(normal, pos)` pair, in slice order. -/
def matchedPN (activeSquares : List CubeElement) (rot : Vec3 → Vec3) (a : CubeElement) :
    List (Vec3 × Vec3) :=
  (activeSquares.filter (fun b =>
      equalDirection (rot a.normal) b.normal && decide (25 * distSq (rot a.pos) b.pos < 1))).map
    (fun b => (b.normal, b.pos))

/-- The final assignment loop of updateStateAfterRotate:
`activeSquares[i].element.normal = pn[i].nor; … .pos = pn[i].pos`.  The
squares of the active slice receive, in order, the successive entries of
`pn`; running past the end of `pn` (JavaScript reads `undefined` and crashes
on the field access) is `none`, and surplus entries of `pn` are ignored. -/
def assignPN : List CubeElement → (CubeElement → Bool) → List (Vec3 × Vec3) →
    Option (List CubeElement)
  | [], _, _ => some []
  | e :: rest, isActive, pn =>
    if isActive e then
      match pn with
      | [] => none
      | q :: pnRest =>
        (assignPN rest isActive pnRest).map
          (fun tail => { e with normal := q.1, pos := q.2 } :: tail)
    else
      (assignPN rest isActive pn).map (fun tail => e :: tail)

/-- updateStateAfterRotate (cubeState.ts).  `rotateAnglePI` is the
accumulated angle of the cube state in right-angle units; the snap correction
of getNeededRotateAngle is added, the net angle is reduced modulo a full turn
(JavaScript `%`, sign of the dividend), and when the result is above the
tolerance every square of the active slice is reassigned the normal and
position of the existing active square that matches its rotated clone.
Squares outside the slice are untouched, and colors are never written. -/
def updateStateAfterRotate (squares : List CubeElement) (isActive : CubeElement → Bool)
    (rotateAxisLocal : Vec3) (rotateAnglePI : ℚ) : Option (List CubeElement) :=
  let total := rotateAnglePI + getNeededRotateAngle rotateAnglePI
  let angleRelative360PI := jsMod total 4
  if overAngleTolerance angleRelative360PI then
    let cs := angleCS angleRelative360PI
    let rot := makeRotationAxis rotateAxisLocal cs.1 cs.2
    let activeSquares := squares.filter isActive
    let pn := activeSquares.flatMap (matchedPN activeSquares rot)
    assignPN squares isActive pn
  else
    some squares

/-- rotatePlane2 (cubeState.ts): the instant programmatic quarter-turn path.
`angle90` is the requested number of right angles (the program passes ±1).
The slice is selected by `inRotatePlane`; after the (purely visual) matrix
application the state fields are set exactly as in the source —
`activeSquares` to the slice, `rotateAxisLocal` to the raw axis,
`rotateAnglePI` to `angle90` right angles — and updateStateAfterRotate
reconciles the element data.  A control square index outside the list is a
crash, `none`. -/
def rotatePlane2 (squares : List CubeElement) (controlIdx : ℕ) (axis : Vec3) (angle90 : ℤ) :
    Option (List CubeElement) :=
  match squares[controlIdx]? with
  | none => none
  | some controlSquare =>
    updateStateAfterRotate squares (fun sq => inRotatePlane controlSquare sq axis) axis
      (angle90 : ℚ)

/-- Completion of a snapped drag turn (getAfterRotateAnimation ending in
updateStateAfterRotate): the slice and local axis were fixed by
rotateOnePlane when the drag started — the same membership test as
rotatePlane2, evaluated on the same element data, which the drag does not
modify — and `rotateAnglePI` holds the accumulated drag angle, an arbitrary
rational number of right angles. -/
def finishDragRotate (squares : List CubeElement) (controlIdx : ℕ) (axis : Vec3)
    (rotateAnglePI : ℚ) : Option (List CubeElement) :=
  match squares[controlIdx]? with
  | none => none
  | some controlSquare =>
    updateStateAfterRotate squares (fun sq => inRotatePlane controlSquare sq axis) axis
      rotateAnglePI

/-- The array swap `[colors[i], colors[j]] = [colors[j], colors[i]]` of the
disorder loop, a no-op when an index is out of range (the source's indices
always are in range). -/
def swapAt (l : List String) (i j : ℕ) : List String :=
  match l[i]?, l[j]? with
  | some a, some b => (l.set i b).set j a
  | _, _ => l

/-- The Fisher–Yates loop of disorder:
`for (let i = n − 1; i > 0; i--) swap(i, js i)`, where `js i` stands for the
draw `Math.floor(Math.random() * (i + 1))` (so `js i ≤ i` always holds at
run time). -/
def fisherYates (js : ℕ → ℕ) : List String → ℕ → List String
  | cs, 0 => cs
  | cs, i + 1 => fisherYates js (swapAt cs (i + 1) (js (i + 1))) i

/-- disorder (cubeState.ts): read all colors, shuffle them with Fisher–Yates,
and write them back index by index; position, normal and logo flag are never
touched. -/
def disorder (squares : List CubeElement) (js : ℕ → ℕ) : List CubeElement :=
  let colors := squares.map (fun e => e.color)
  let shuffled := fisherYates js colors (colors.length - 1)
  (squares.zip shuffled).map (fun ec => { ec.1 with color := ec.2 })

/-- The six face buckets of validateFinish, in source order. -/
def sixPlaneNormals : List Vec3 :=
  [⟨0, 1, 0⟩, ⟨0, -1, 0⟩, ⟨-1, 0, 0⟩, ⟨1, 0, 0⟩, ⟨0, 0, 1⟩, ⟨0, 0, -1⟩]

/-- One step of validateFinish's bucket loop: `sixPlane.find` scans the
buckets in order for an exact normal match and the source dereferences the
result with `plane!`; a square whose normal is in no bucket makes that a
crash, modelled as `none`. -/
def pushToPlane : List (Vec3 × List CubeElement) → CubeElement →
    Option (List (Vec3 × List CubeElement))
  | [], _ => none
  | p :: rest, sq =>
    if p.1 = sq.normal then some ((p.1, p.2 ++ [sq]) :: rest)
    else (pushToPlane rest sq).map (fun r => p :: r)

/-- validateFinish (cubeState.ts): bucket every square by exact normal
equality into the six canonical planes, then report whether every bucket is
monochromatic (`every` over an empty bucket is vacuously true, exactly as in
JavaScript). -/
def validateFinish (squares : List CubeElement) : Option Bool :=
  (squares.foldlM pushToPlane (sixPlaneNormals.map (fun n => (n, ([] : List CubeElement))))).map
    (fun sixPlane => sixPlane.all (fun p =>
      match p.2 with
      | [] => true
      | h :: t => (h :: t).all (fun sq => sq.color == h.color)))

/-- Outcome of getLocalData (cubeData.ts) as seen by initElements: the
localStorage key can be absent (`none`), hold a string JSON.parse rejects
(`Except.error`, caught, logged and turned into `[]`), or parse to an element
array. -/
def getLocalData (stored : Option (Except String (List CubeElement))) : List CubeElement :=
  match stored with
  | none => []
  | some (Except.error _) => []
  | some (Except.ok parseData) => parseData

/-- initElements (cubeData.ts): load the persisted elements and accept them
only when there are exactly `cubeOrder · cubeOrder · 6` of them; otherwise
regenerate the solved layout with initialFinishData. -/
def initElements (cubeOrder : ℕ) (colors : Fin 6 → String)
    (stored : Option (Except String (List CubeElement))) : List CubeElement :=
  let elements := getLocalData stored
  if elements.length = cubeOrder * cubeOrder * 6 then elements
  else initialFinishData cubeOrder colors

/-- getAngleBetweenTwoVector2 (math.ts) computes
`Math.acos(dotValue / (vec1.length() * vec2.length()))` with no clamping of
the quotient.  ECMAScript `Math.acos` yields NaN whenever its argument falls
outside [−1, 1]; this predicate records, for the floating-point quotient the
source computes, whether that acos call yields NaN. -/
def acosYieldsNaN (quotient : ℚ) : Bool := decide (quotient < -1 ∨ 1 < quotient)

/-- The clamp to [lo, hi] that the specification prescribes before acos. -/
def clampQ (x lo hi : ℚ) : ℚ := max lo (min x hi)

/-- The geometric value of an element: its position/normal pair, the data
updateStateAfterRotate reconciles and validateFinish and the slice test read. -/
def valPN (e : CubeElement) : Vec3 × Vec3 := (e.pos, e.normal)

/-- The multiset of geometric values of a cube state. -/
def valsOf (squares : List CubeElement) : Multiset (Vec3 × Vec3) :=
  (squares.map valPN : List (Vec3 × Vec3))

/-- The geometric values of the solved order-`N` layout (independent of the
color scheme). -/
def solvedVals (N : ℕ) : Multiset (Vec3 × Vec3) := valsOf (initialFinishData N defaultColors)

/-- Characterization of the solved geometric values: the normal is one of the
six canonical ones, the position lies on that face's plane (`dotV pos normal`
equals the doubled face offset `N`), and each in-face coordinate lies on the
generation grid. -/
def MemSolved (N : ℕ) (v : Vec3 × Vec3) : Prop :=
  v.2 ∈ sixPlaneNormals ∧ dotV v.1 v.2 = (N : ℤ) ∧
    ∀ m ∈ sixPlaneNormals, dotV m v.2 = 0 → dotV v.1 m ∈ gridCoords N

/-- An element after the reconciliation rotation: position and normal rotated,
color and logo flag untouched. -/
def rotatedElement (rot : Vec3 → Vec3) (e : CubeElement) : CubeElement :=
  { e with pos := rot e.pos, normal := rot e.normal }

/-- The state after a completed slice turn: slice members rotated, the rest
untouched. -/
def turnResult (rot : Vec3 → Vec3) (isActive : CubeElement → Bool)
    (squares : List CubeElement) : List CubeElement :=
  squares.map (fun e => if isActive e then rotatedElement rot e else e)

/-- The six axis directions a turn can use: the three scramble axes of
scrambleSmart together with their negations, which the drag path's cross
product can produce. -/
def unitAxes : List Vec3 :=
  [⟨1, 0, 0⟩, ⟨-1, 0, 0⟩, ⟨0, 1, 0⟩, ⟨0, -1, 0⟩, ⟨0, 0, 1⟩, ⟨0, 0, -1⟩]

/-- The cosine/sine pairs of integer numbers of right angles. -/
def quarterPairs : List (ℤ × ℤ) := [(1, 0), (0, 1), (-1, 0), (0, -1)]

/-- A rotation acting on a geometric value: both the position and the normal
receive the same matrix, exactly as updateStateAfterRotate applies
`rotateMat2` to both clones. -/
def pairRot (rot : Vec3 → Vec3) (v : Vec3 × Vec3) : Vec3 × Vec3 := (rot v.1, rot v.2)

/-- The slice-membership test as a function of the geometric values alone:
`inRotatePlane c e axis` depends only on `valPN c` and `valPN e`. -/
def planePN (cv v : Vec3 × Vec3) (axis : Vec3) : Bool :=
  decide (dotV ((cv.1 - normalizeV cv.2) - (v.1 - normalizeV v.2)) axis = 0)

/-- The states reachable from the solved layout by completed operations: the
instant quarter turns of rotatePlane2/scrambleSmart (an integer number of
right angles through the shared finishDragRotate path), snapped drag turns
finalized by updateStateAfterRotate (an arbitrary accumulated angle), and
color shuffles through disorder. -/
inductive Reachable (N : ℕ) : List CubeElement → Prop
  | start : Reachable N (initialFinishData N defaultColors)
  | turn {s t : List CubeElement} {controlIdx : ℕ} {axis : Vec3} {anglePI : ℚ} :
      Reachable N s → axis ∈ unitAxes →
      finishDragRotate s controlIdx axis anglePI = some t → Reachable N t
  | shuffle {s : List CubeElement} (js : ℕ → ℕ) :
      Reachable N s → Reachable N (disorder s js)

theorem truncQ_nonneg_bounds (q : ℚ) (hq : 0 ≤ q) :
    (truncQ q : ℚ) ≤ q ∧ q < (truncQ q : ℚ) + 1 := by
  have hden : (0 : ℤ) < (q.den : ℤ) := by exact_mod_cast q.den_pos
  have hnum : 0 ≤ q.num := Rat.num_nonneg.mpr hq
  have hmod := Int.tdiv_add_tmod q.num (q.den : ℤ)
  have h0 : 0 ≤ q.num.tmod (q.den : ℤ) := Int.tmod_nonneg _ hnum
  have h1 : q.num.tmod (q.den : ℤ) < (q.den : ℤ) := Int.tmod_lt_of_pos _ hden
  have hle : (q.den : ℤ) * truncQ q ≤ q.num := by unfold truncQ; omega
  have hlt : q.num < (q.den : ℤ) * (truncQ q + 1) := by
    unfold truncQ; rw [mul_add, mul_one]; omega
  have hdenQ : (0 : ℚ) < ((q.den : ℕ) : ℚ) := by exact_mod_cast q.den_pos
  have key1 : (truncQ q : ℚ) ≤ (q.num : ℚ) / ((q.den : ℕ) : ℚ) := by
    rw [le_div_iff₀ hdenQ]
    calc (truncQ q : ℚ) * ((q.den : ℕ) : ℚ) = (((q.den : ℤ) * truncQ q : ℤ) : ℚ) := by
          push_cast; ring
    _ ≤ (q.num : ℚ) := by exact_mod_cast hle
  have key2 : (q.num : ℚ) / ((q.den : ℕ) : ℚ) < (truncQ q : ℚ) + 1 := by
    rw [div_lt_iff₀ hdenQ]
    calc ((q.num : ℚ)) < (((q.den : ℤ) * (truncQ q + 1) : ℤ) : ℚ) := by exact_mod_cast hlt
    _ = ((truncQ q : ℚ) + 1) * ((q.den : ℕ) : ℚ) := by push_cast; ring
  rw [Rat.num_div_den q] at key1 key2
  exact ⟨key1, key2⟩

theorem truncQ_neg (q : ℚ) : truncQ (-q) = -truncQ q := by
  unfold truncQ
  rw [Rat.neg_num, Rat.neg_den, Int.neg_tdiv]

theorem truncQ_unique (q : ℚ) (t : ℤ) (hq : 0 ≤ q) (h1 : (t : ℚ) ≤ q) (h2 : q < (t : ℚ) + 1) :
    truncQ q = t := by
  obtain ⟨ha, hb⟩ := truncQ_nonneg_bounds q hq
  have h3 : (truncQ q : ℚ) < (t : ℚ) + 1 := lt_of_le_of_lt ha h2
  have h4 : (t : ℚ) < (truncQ q : ℚ) + 1 := lt_of_le_of_lt h1 hb
  have h3' : truncQ q < t + 1 := by exact_mod_cast h3
  have h4' : t < truncQ q + 1 := by exact_mod_cast h4
  omega

theorem jsMod_one_fract (b : ℚ) (hb : 0 ≤ b) :
    0 ≤ jsMod b 1 ∧ jsMod b 1 < 1 ∧ b - jsMod b 1 = (truncQ b : ℚ) := by
  obtain ⟨h1, h2⟩ := truncQ_nonneg_bounds b hb
  unfold jsMod
  rw [div_one, one_mul]
  refine ⟨by linarith, by linarith, by ring⟩

theorem truncQ_nonneg (b : ℚ) (hb : 0 ≤ b) : 0 ≤ truncQ b := by
  have h2 := (truncQ_nonneg_bounds b hb).2
  have h3 : (-1 : ℚ) < (truncQ b : ℚ) := by linarith
  have h4 : (-1 : ℤ) < truncQ b := by exact_mod_cast h3
  omega

theorem getNeededRotateAngle_eq (a : ℚ) :
    getNeededRotateAngle a =
      if 0 < a then (if 1 / 2 < jsMod |a| 1 then 1 - jsMod |a| 1 else -jsMod |a| 1)
      else -(if 1 / 2 < jsMod |a| 1 then 1 - jsMod |a| 1 else -jsMod |a| 1) := rfl

theorem jsMod_zero_one : jsMod (0 : ℚ) 1 = 0 := by
  have ht : truncQ (0 : ℚ) = 0 := truncQ_unique 0 0 le_rfl (by norm_num) (by norm_num)
  have := (jsMod_one_fract 0 le_rfl).2.2
  rw [ht] at this
  push_cast at this
  linarith

theorem getNeededRotateAngle_neg (a : ℚ) :
    getNeededRotateAngle (-a) = -getNeededRotateAngle a := by
  rw [getNeededRotateAngle_eq, getNeededRotateAngle_eq, abs_neg]
  rcases lt_trichotomy a 0 with h | h | h
  · rw [if_pos (show (0 : ℚ) < -a by linarith), if_neg (show ¬ (0 : ℚ) < a by linarith), neg_neg]
  · subst h
    rw [abs_zero, jsMod_zero_one]
    norm_num
  · rw [if_neg (show ¬ (0 : ℚ) < -a by linarith), if_pos h]

theorem getNeededRotateAngle_spec_nonneg (a : ℚ) (ha : 0 ≤ a) :
    (a + getNeededRotateAngle a = (truncQ a : ℚ) ∨
      a + getNeededRotateAngle a = (truncQ a : ℚ) + 1) ∧
    |getNeededRotateAngle a| ≤ 1 / 2 ∧
    (1 / 2 < jsMod |a| 1 ↔ |a| < |a + getNeededRotateAngle a|) := by
  have habs : |a| = a := abs_of_nonneg ha
  obtain ⟨he0, he1, hek⟩ := jsMod_one_fract a ha
  have hk0 : (0 : ℚ) ≤ (truncQ a : ℚ) := by exact_mod_cast truncQ_nonneg a ha
  rw [getNeededRotateAngle_eq, habs]
  by_cases hfwd : 1 / 2 < jsMod a 1
  · rw [if_pos hfwd]
    have ha0 : 0 < a := by linarith
    rw [if_pos ha0]
    refine ⟨Or.inr (by linarith), ?_, ?_⟩
    · rw [abs_of_nonneg (by linarith)]
      linarith
    · constructor
      · intro _
        rw [abs_of_nonneg (show (0 : ℚ) ≤ a + (1 - jsMod a 1) by linarith)]
        linarith
      · intro _
        exact hfwd
  · rw [if_neg hfwd]
    have hδ : (if 0 < a then -jsMod a 1 else -(-jsMod a 1)) = -jsMod a 1 := by
      by_cases ha0 : 0 < a
      · rw [if_pos ha0]
      · have haz : a = 0 := le_antisymm (by linarith) ha
        rw [if_neg ha0, haz, jsMod_zero_one, neg_zero, neg_zero]
    rw [hδ]
    refine ⟨Or.inl (by linarith), ?_, ?_⟩
    · rw [abs_of_nonpos (by linarith)]
      linarith
    · constructor
      · intro h
        exact absurd h hfwd
      · intro h
        exfalso
        rw [abs_of_nonneg (show (0 : ℚ) ≤ a + -jsMod a 1 by linarith)] at h
        linarith

/-- Claim C5: for every accumulated angle (in right-angle units: the stored
radian angle divided by π/2) the snap correction of getNeededRotateAngle
lands on an integer number of right angles, moves by at most half a right
angle (π/4 in radians), goes strictly away from zero exactly when the
remainder modulo one right angle exceeds the halfway point π/4, and is odd in
the accumulated angle (the sign convention follows the drag direction). -/
theorem C5_snap_to_quarter (rotateAnglePI : ℚ) :
    (∃ m : ℤ, rotateAnglePI + getNeededRotateAngle rotateAnglePI = (m : ℚ)) ∧
    |getNeededRotateAngle rotateAnglePI| ≤ 1 / 2 ∧
    (1 / 2 < jsMod |rotateAnglePI| 1 ↔
      |rotateAnglePI| < |rotateAnglePI + getNeededRotateAngle rotateAnglePI|) ∧
    getNeededRotateAngle (-rotateAnglePI) = -getNeededRotateAngle rotateAnglePI := by
  rcases le_or_lt 0 rotateAnglePI with ha | ha
  · obtain ⟨h1, h2, h3⟩ := getNeededRotateAngle_spec_nonneg rotateAnglePI ha
    refine ⟨?_, h2, h3, getNeededRotateAngle_neg rotateAnglePI⟩
    rcases h1 with h | h
    · exact ⟨truncQ rotateAnglePI, h⟩
    · exact ⟨truncQ rotateAnglePI + 1, by push_cast; linarith⟩
  · obtain ⟨h1, h2, h3⟩ := getNeededRotateAngle_spec_nonneg (-rotateAnglePI) (by linarith)
    have hneg : getNeededRotateAngle rotateAnglePI = -getNeededRotateAngle (-rotateAnglePI) := by
      rw [← getNeededRotateAngle_neg, neg_neg]
    refine ⟨?_, ?_, ?_, getNeededRotateAngle_neg rotateAnglePI⟩
    · rcases h1 with h | h
      · exact ⟨-truncQ (-rotateAnglePI), by rw [hneg]; push_cast; linarith⟩
      · exact ⟨-(truncQ (-rotateAnglePI) + 1), by rw [hneg]; push_cast; linarith⟩
    · rw [hneg, abs_neg]
      exact h2
    · rw [hneg, ← abs_neg rotateAnglePI, ← abs_neg (rotateAnglePI + -getNeededRotateAngle (-rotateAnglePI))]
      have heq : -(rotateAnglePI + -getNeededRotateAngle (-rotateAnglePI)) =
          -rotateAnglePI + getNeededRotateAngle (-rotateAnglePI) := by ring
      rw [heq]
      exact h3

/-- Claim C4, counterexample: at an accumulated angle of exactly π/4 (one
half right angle) the snap correction is −π/4 — the slice snaps backward to
0 — and not the +π/4 that would snap it forward to π/2. -/
theorem C4_tie_counterexample :
    getNeededRotateAngle (1 / 2) = -(1 / 2) ∧ ¬ getNeededRotateAngle (1 / 2) = 1 / 2 := by
  have ht : truncQ (1 / 2 : ℚ) = 0 := truncQ_unique _ 0 (by norm_num) (by norm_num) (by norm_num)
  have hm : jsMod (1 / 2 : ℚ) 1 = 1 / 2 := by
    have := (jsMod_one_fract (1 / 2) (by norm_num)).2.2
    rw [ht] at this
    push_cast at this
    linarith
  rw [getNeededRotateAngle_eq, abs_of_nonneg (by norm_num : (0:ℚ) ≤ 1/2), hm,
    if_pos (show (0 : ℚ) < 1 / 2 by norm_num), if_neg (show ¬ (1 / 2 : ℚ) < 1 / 2 by norm_num)]
  norm_num

/-- Claim C4 as amended: the snap boundary policy of getNeededRotateAngle is
strict — an accumulated angle of exactly π/4 snaps backward to 0 (ties go
backward), π/4 − ε snaps backward to 0, and π/4 + ε snaps forward to π/2
(angles in right-angle units: π/4 is 1/2). -/
theorem C4_snap_boundary (ε : ℚ) (h0 : 0 < ε) (h1 : ε < 1 / 2) :
    getNeededRotateAngle (1 / 2) = -(1 / 2) ∧
    getNeededRotateAngle (1 / 2 - ε) = -(1 / 2 - ε) ∧
    getNeededRotateAngle (1 / 2 + ε) = 1 / 2 - ε := by
  refine ⟨C4_tie_counterexample.1, ?_, ?_⟩
  · have ht : truncQ (1 / 2 - ε : ℚ) = 0 :=
      truncQ_unique _ 0 (by linarith) (by push_cast; linarith) (by push_cast; linarith)
    have hm : jsMod (1 / 2 - ε : ℚ) 1 = 1 / 2 - ε := by
      have := (jsMod_one_fract (1 / 2 - ε) (by linarith)).2.2
      rw [ht] at this
      push_cast at this
      linarith
    rw [getNeededRotateAngle_eq, abs_of_nonneg (by linarith), hm,
      if_pos (show (0 : ℚ) < 1 / 2 - ε by linarith),
      if_neg (show ¬ (1 / 2 : ℚ) < 1 / 2 - ε by linarith)]
  · have ht : truncQ (1 / 2 + ε : ℚ) = 0 :=
      truncQ_unique _ 0 (by linarith) (by push_cast; linarith) (by push_cast; linarith)
    have hm : jsMod (1 / 2 + ε : ℚ) 1 = 1 / 2 + ε := by
      have := (jsMod_one_fract (1 / 2 + ε) (by linarith)).2.2
      rw [ht] at this
      push_cast at this
      linarith
    rw [getNeededRotateAngle_eq, abs_of_nonneg (by linarith), hm,
      if_pos (show (0 : ℚ) < 1 / 2 + ε by linarith),
      if_pos (show (1 / 2 : ℚ) < 1 / 2 + ε by linarith)]
    ring

theorem C4_snap_boundary_witness :
    getNeededRotateAngle (1 / 2) = -(1 / 2) ∧
    getNeededRotateAngle (1 / 2 - 1 / 4) = -(1 / 2 - 1 / 4) ∧
    getNeededRotateAngle (1 / 2 + 1 / 4) = 1 / 2 - 1 / 4 :=
  C4_snap_boundary (1 / 4) (by norm_num) (by norm_num)

/-- Claim C3: the source applies Math.acos to the raw quotient
`dotValue / (len1 · len2)` with no clamp, so the floating-point quotient
`1 + 2⁻⁵²` — produced for example by `u = v = (0.1, 0.7)` in double
precision — makes the acos call yield NaN, while the clamped quotient the
specification prescribes stays in the domain of acos. -/
theorem C3_acos_overshoot :
    acosYieldsNaN (1 + 1 / 4503599627370496) = true ∧
    acosYieldsNaN (clampQ (1 + 1 / 4503599627370496) (-1) 1) = false := by
  constructor
  · simp only [acosYieldsNaN, decide_eq_true_eq]
    right
    norm_num
  · simp only [acosYieldsNaN, clampQ, decide_eq_false_iff_not]
    rw [min_eq_right (by norm_num), max_eq_right (by norm_num)]
    push_neg
    constructor <;> norm_num

/-- Claim C7: a missing or unparseable persisted blob, or one whose facelet
count differs from `6·N²`, is discarded and the elements are regenerated as
the deterministic solved layout; a blob with exactly `6·N²` facelets is
accepted as-is. -/
theorem C7_persisted_data_validation (cubeOrder : ℕ) (colors : Fin 6 → String) :
    initElements cubeOrder colors none = initialFinishData cubeOrder colors ∧
    (∀ msg, initElements cubeOrder colors (some (Except.error msg)) =
      initialFinishData cubeOrder colors) ∧
    (∀ parseData : List CubeElement, parseData.length ≠ 6 * cubeOrder * cubeOrder →
      initElements cubeOrder colors (some (Except.ok parseData)) =
        initialFinishData cubeOrder colors) ∧
    (∀ parseData : List CubeElement, parseData.length = 6 * cubeOrder * cubeOrder →
      initElements cubeOrder colors (some (Except.ok parseData)) = parseData) := by
  have hempty : ∀ st, getLocalData st = [] →
      initElements cubeOrder colors st = initialFinishData cubeOrder colors := by
    intro st hst
    unfold initElements
    rw [hst]
    by_cases h : cubeOrder = 0
    · subst h
      simp [initialFinishData, gridCoords]
    · rw [if_neg]
      simp only [List.length_nil]
      intro hc
      have hpos : 0 < cubeOrder := Nat.pos_of_ne_zero h
      have : 0 < cubeOrder * cubeOrder * 6 := by positivity
      omega
  refine ⟨hempty none rfl, fun msg => hempty _ rfl, ?_, ?_⟩
  · intro parseData hlen
    unfold initElements getLocalData
    rw [if_neg (fun hc => hlen (by rw [hc]; ring))]
  · intro parseData hlen
    unfold initElements getLocalData
    rw [if_pos (by rw [hlen]; ring)]

theorem C7_persisted_data_validation_witness :
    initElements 3 defaultColors (some (Except.ok [])) = initialFinishData 3 defaultColors ∧
    initElements 3 defaultColors none = initialFinishData 3 defaultColors :=
  ⟨(C7_persisted_data_validation 3 defaultColors).2.2.1 [] (by decide),
    (C7_persisted_data_validation 3 defaultColors).1⟩

/-- Claim C6: on the solved order-3 layout, for every pivot facelet of the
top (+Y) face, the slice selected by the programmatic turn path with axis
(0,1,0) — all squares whose getTemPos reference point differs from the
pivot's by a vector with zero dot product against the axis — contains
exactly 21 facelets: the 9 facelets of the top face plus 3 facelets from
each of the four side faces. -/
theorem C6_top_slice_is_21 :
    ((initialFinishData 3 defaultColors).filter
        (fun e => decide (e.normal = ⟨0, 1, 0⟩))).length = 9 ∧
    ((initialFinishData 3 defaultColors).filter
        (fun e => decide (e.normal = ⟨0, 1, 0⟩))).all (fun controlSquare =>
      ((initialFinishData 3 defaultColors).filter
          (fun sq => inRotatePlane controlSquare sq ⟨0, 1, 0⟩)).length == 21 &&
      (((initialFinishData 3 defaultColors).filter
          (fun sq => inRotatePlane controlSquare sq ⟨0, 1, 0⟩)).filter
          (fun sq => decide (sq.normal = ⟨0, 1, 0⟩))).length == 9 &&
      ([⟨1, 0, 0⟩, ⟨-1, 0, 0⟩, ⟨0, 0, 1⟩, ⟨0, 0, -1⟩] : List Vec3).all (fun n =>
        (((initialFinishData 3 defaultColors).filter
            (fun sq => inRotatePlane controlSquare sq ⟨0, 1, 0⟩)).filter
            (fun sq => decide (sq.normal = n))).length == 3)) = true := by
  decide

theorem pushToPlane_isSome (sq : CubeElement) :
    ∀ ps : List (Vec3 × List CubeElement), sq.normal ∈ ps.map Prod.fst →
      ∃ r, pushToPlane ps sq = some r ∧ r.map Prod.fst = ps.map Prod.fst := by
  intro ps
  induction ps with
  | nil => intro h; simp at h
  | cons p rest ih =>
    intro h
    by_cases hp : p.1 = sq.normal
    · exact ⟨(p.1, p.2 ++ [sq]) :: rest, by simp [pushToPlane, hp]⟩
    · have hmem : sq.normal ∈ rest.map Prod.fst := by
        rcases List.mem_map.mp h with ⟨q, hq, hq2⟩
        rcases List.mem_cons.mp hq with rfl | hq
        · exact absurd hq2 hp
        · exact List.mem_map.mpr ⟨q, hq, hq2⟩
      rcases ih hmem with ⟨r, hr1, hr2⟩
      exact ⟨p :: r, by simp [pushToPlane, hp, hr1, hr2]⟩

theorem foldl_pushToPlane_isSome (squares : List CubeElement) :
    ∀ ps : List (Vec3 × List CubeElement),
      (∀ e ∈ squares, e.normal ∈ ps.map Prod.fst) →
      ∃ r, squares.foldlM pushToPlane ps = some r := by
  induction squares with
  | nil => intro ps _; exact ⟨ps, rfl⟩
  | cons e rest ih =>
    intro ps hall
    rcases pushToPlane_isSome e ps (hall e (List.mem_cons_self e rest)) with ⟨r, hr1, hr2⟩
    rcases ih r (fun x hx => hr2 ▸ hall x (List.mem_cons_of_mem e hx)) with ⟨r2, hr3⟩
    exact ⟨r2, by simpa [List.foldlM_cons, hr1] using hr3⟩

/-- Claim C9: under the canonical-normal invariant the non-null assertion of
validateFinish's bucket search is unreachable — the check always returns a
boolean — while a state holding a facelet whose normal is none of the six
canonical unit vectors makes validateFinish fault (the `plane!` dereference
of a failed `find`) instead of returning a boolean. -/
theorem C9_validateFinish_totality :
    (∀ squares : List CubeElement, (∀ e ∈ squares, e.normal ∈ sixPlaneNormals) →
      (validateFinish squares).isSome = true) ∧
    validateFinish [⟨"#FF0000", ⟨0, 0, 0⟩, ⟨1, 1, 0⟩, false⟩] = none := by
  constructor
  · intro squares hall
    have hinit : (sixPlaneNormals.map
        (fun n => (n, ([] : List CubeElement)))).map Prod.fst = sixPlaneNormals := by
      simp [Function.comp_def]
    rcases foldl_pushToPlane_isSome squares _ (fun e he => hinit ▸ hall e he) with ⟨r, hr⟩
    unfold validateFinish
    rw [hr]
    rfl
  · decide

theorem C9_validateFinish_totality_witness :
    (validateFinish (initialFinishData 3 defaultColors)).isSome = true :=
  C9_validateFinish_totality.1 (initialFinishData 3 defaultColors) (by decide)

theorem count_set_add (a x : String) :
    ∀ (l : List String) (i : ℕ) (v : String), l[i]? = some v →
      (l.set i a).count x + (if v == x then 1 else 0) =
        l.count x + (if a == x then 1 else 0) := by
  intro l
  induction l with
  | nil => intro i v h; simp at h
  | cons hd tl ih =>
    intro i v h
    cases i with
    | zero =>
      simp only [List.getElem?_cons_zero, Option.some.injEq] at h
      subst h
      simp only [List.set, List.count_cons]
      omega
    | succ n =>
      simp only [List.getElem?_cons_succ] at h
      have := ih n v h
      simp only [List.set, List.count_cons]
      omega

theorem swapAt_count (l : List String) (i j : ℕ) (x : String) :
    (swapAt l i j).count x = l.count x := by
  cases h1 : l[i]? with
  | none => simp [swapAt, h1]
  | some a =>
    cases h2 : l[j]? with
    | none => simp [swapAt, h1, h2]
    | some b =>
      rw [show swapAt l i j = (l.set i b).set j a from by simp [swapAt, h1, h2]]
      have hi : i < l.length := by
        by_contra hc
        rw [List.getElem?_eq_none (by omega)] at h1
        exact Option.noConfusion h1
      have hj : (l.set i b)[j]? = some b := by
        rw [List.getElem?_set]
        by_cases hij : i = j
        · rw [if_pos hij, if_pos hi]
        · rw [if_neg hij]
          by_cases hab : a = b
          · exact h2
          · exact h2
      have c2 := count_set_add a x (l.set i b) j b hj
      have c1 := count_set_add b x l i a h1
      omega

theorem swapAt_length (l : List String) (i j : ℕ) : (swapAt l i j).length = l.length := by
  cases h1 : l[i]? with
  | none => simp [swapAt, h1]
  | some a =>
    cases h2 : l[j]? with
    | none => simp [swapAt, h1, h2]
    | some b => simp [swapAt, h1, h2]

theorem fisherYates_count (js : ℕ → ℕ) (x : String) :
    ∀ (n : ℕ) (cs : List String), (fisherYates js cs n).count x = cs.count x := by
  intro n
  induction n with
  | zero => intro cs; rfl
  | succ m ih =>
    intro cs
    show (fisherYates js (swapAt cs (m + 1) (js (m + 1))) m).count x = cs.count x
    rw [ih, swapAt_count]

theorem fisherYates_length (js : ℕ → ℕ) :
    ∀ (n : ℕ) (cs : List String), (fisherYates js cs n).length = cs.length := by
  intro n
  induction n with
  | zero => intro cs; rfl
  | succ m ih =>
    intro cs
    show (fisherYates js (swapAt cs (m + 1) (js (m + 1))) m).length = cs.length
    rw [ih, swapAt_length]

theorem zip_recolor_geometry :
    ∀ (l : List CubeElement) (cs : List String), l.length = cs.length →
      ((l.zip cs).map (fun ec => { ec.1 with color := ec.2 })).map
          (fun e => (e.pos, e.normal, e.withLogo)) =
        l.map (fun e => (e.pos, e.normal, e.withLogo)) := by
  intro l
  induction l with
  | nil => intro cs _; rfl
  | cons e rest ih =>
    intro cs hlen
    cases cs with
    | nil => simp at hlen
    | cons c cs' =>
      simp only [List.zip_cons_cons, List.map_cons]
      rw [ih cs' (by simpa using hlen)]

theorem zip_recolor_colors :
    ∀ (l : List CubeElement) (cs : List String), l.length = cs.length →
      ((l.zip cs).map (fun ec => { ec.1 with color := ec.2 })).map (fun e => e.color) = cs := by
  intro l
  induction l with
  | nil =>
    intro cs hlen
    cases cs with
    | nil => rfl
    | cons c cs' => simp at hlen
  | cons e rest ih =>
    intro cs hlen
    cases cs with
    | nil => simp at hlen
    | cons c cs' =>
      simp only [List.zip_cons_cons, List.map_cons]
      rw [ih cs' (by simpa using hlen)]

/-- Claim C8: the color-only shuffle permutes only the color fields — the
multiset of colors over all facelets is preserved, and every facelet keeps
its position, normal and center-marker flag (pointwise, not merely as a
multiset). -/
theorem C8_disorder_colors_only (squares : List CubeElement) (js : ℕ → ℕ) :
    (((disorder squares js).map (fun e => e.color) : List String) : Multiset String) =
      ((squares.map (fun e => e.color) : List String) : Multiset String) ∧
    (disorder squares js).map (fun e => (e.pos, e.normal, e.withLogo)) =
      squares.map (fun e => (e.pos, e.normal, e.withLogo)) := by
  have hlen : (fisherYates js (squares.map (fun e => e.color))
      ((squares.map (fun e => e.color)).length - 1)).length = squares.length := by
    rw [fisherYates_length]
    simp
  constructor
  · show (((disorder squares js).map (fun e => e.color) : List String) : Multiset String) = _
    unfold disorder
    rw [zip_recolor_colors _ _ hlen.symm]
    rw [Multiset.coe_eq_coe]
    exact List.perm_iff_count.mpr (fun x => fisherYates_count js x _ _)
  · unfold disorder
    exact zip_recolor_geometry _ _ hlen.symm

theorem Vec3_sub_def (a b : Vec3) : a - b = ⟨a.x - b.x, a.y - b.y, a.z - b.z⟩ := rfl

theorem Vec3_sub_self (a : Vec3) : a - a = ⟨0, 0, 0⟩ := by
  rw [Vec3_sub_def]
  ext <;> simp

theorem mem_unitAxes_iff (a : Vec3) :
    a ∈ unitAxes ↔ a = ⟨1, 0, 0⟩ ∨ a = ⟨-1, 0, 0⟩ ∨ a = ⟨0, 1, 0⟩ ∨ a = ⟨0, -1, 0⟩ ∨
      a = ⟨0, 0, 1⟩ ∨ a = ⟨0, 0, -1⟩ := by
  simp [unitAxes]

theorem mem_sixPlaneNormals_iff (n : Vec3) :
    n ∈ sixPlaneNormals ↔ n = ⟨0, 1, 0⟩ ∨ n = ⟨0, -1, 0⟩ ∨ n = ⟨-1, 0, 0⟩ ∨ n = ⟨1, 0, 0⟩ ∨
      n = ⟨0, 0, 1⟩ ∨ n = ⟨0, 0, -1⟩ := by
  simp [sixPlaneNormals]

theorem mem_quarterPairs_iff (c s : ℤ) :
    (c, s) ∈ quarterPairs ↔ (c = 1 ∧ s = 0) ∨ (c = 0 ∧ s = 1) ∨ (c = -1 ∧ s = 0) ∨
      (c = 0 ∧ s = -1) := by
  simp [quarterPairs, Prod.ext_iff]

theorem rot_sub (a : Vec3) (c s : ℤ) (u v : Vec3) :
    makeRotationAxis a c s (u - v) = makeRotationAxis a c s u - makeRotationAxis a c s v := by
  rw [Vec3_sub_def, Vec3_sub_def]
  ext <;> simp only [makeRotationAxis] <;> ring

theorem rot_id (a : Vec3) (v : Vec3) : makeRotationAxis a 1 0 v = v := by
  ext <;> simp [makeRotationAxis]

theorem rot_dot (axis : Vec3) (hax : axis ∈ unitAxes) (c s : ℤ) (hcs : (c, s) ∈ quarterPairs)
    (u v : Vec3) :
    dotV (makeRotationAxis axis c s u) (makeRotationAxis axis c s v) = dotV u v := by
  rcases (mem_unitAxes_iff axis).mp hax with rfl | rfl | rfl | rfl | rfl | rfl <;>
    rcases (mem_quarterPairs_iff c s).mp hcs with ⟨rfl, rfl⟩ | ⟨rfl, rfl⟩ | ⟨rfl, rfl⟩ | ⟨rfl, rfl⟩ <;>
    simp [makeRotationAxis, dotV] <;> ring

theorem rot_axis_fixed (axis : Vec3) (hax : axis ∈ unitAxes) (c s : ℤ)
    (hcs : (c, s) ∈ quarterPairs) : makeRotationAxis axis c s axis = axis := by
  rcases (mem_unitAxes_iff axis).mp hax with rfl | rfl | rfl | rfl | rfl | rfl <;>
    rcases (mem_quarterPairs_iff c s).mp hcs with ⟨rfl, rfl⟩ | ⟨rfl, rfl⟩ | ⟨rfl, rfl⟩ | ⟨rfl, rfl⟩ <;>
    decide

theorem rot_canonical (axis : Vec3) (hax : axis ∈ unitAxes) (c s : ℤ)
    (hcs : (c, s) ∈ quarterPairs) (n : Vec3) (hn : n ∈ sixPlaneNormals) :
    makeRotationAxis axis c s n ∈ sixPlaneNormals := by
  rcases (mem_unitAxes_iff axis).mp hax with rfl | rfl | rfl | rfl | rfl | rfl <;>
    rcases (mem_quarterPairs_iff c s).mp hcs with ⟨rfl, rfl⟩ | ⟨rfl, rfl⟩ | ⟨rfl, rfl⟩ | ⟨rfl, rfl⟩ <;>
    rcases (mem_sixPlaneNormals_iff n).mp hn with rfl | rfl | rfl | rfl | rfl | rfl <;>
    decide

theorem quarterPairs_neg (c s : ℤ) (hcs : (c, s) ∈ quarterPairs) : (c, -s) ∈ quarterPairs := by
  rcases (mem_quarterPairs_iff c s).mp hcs with ⟨rfl, rfl⟩ | ⟨rfl, rfl⟩ | ⟨rfl, rfl⟩ | ⟨rfl, rfl⟩ <;>
    decide

theorem rot_left_inverse (axis : Vec3) (hax : axis ∈ unitAxes) (c s : ℤ)
    (hcs : (c, s) ∈ quarterPairs) (v : Vec3) :
    makeRotationAxis axis c (-s) (makeRotationAxis axis c s v) = v := by
  rcases (mem_unitAxes_iff axis).mp hax with rfl | rfl | rfl | rfl | rfl | rfl <;>
    rcases (mem_quarterPairs_iff c s).mp hcs with ⟨rfl, rfl⟩ | ⟨rfl, rfl⟩ | ⟨rfl, rfl⟩ | ⟨rfl, rfl⟩ <;>
    (ext <;> simp only [makeRotationAxis] <;> ring)

theorem rot_four (axis : Vec3) (hax : axis ∈ unitAxes) (v : Vec3) :
    makeRotationAxis axis 0 1 (makeRotationAxis axis 0 1 (makeRotationAxis axis 0 1
      (makeRotationAxis axis 0 1 v))) = v := by
  rcases (mem_unitAxes_iff axis).mp hax with rfl | rfl | rfl | rfl | rfl | rfl <;>
    (ext <;> simp only [makeRotationAxis] <;> ring)

theorem normalizeV_six (n : Vec3) (hn : n ∈ sixPlaneNormals) : normalizeV n = n := by
  rcases (mem_sixPlaneNormals_iff n).mp hn with rfl | rfl | rfl | rfl | rfl | rfl <;> decide

theorem equalDirection_six (n1 n2 : Vec3) (h1 : n1 ∈ sixPlaneNormals)
    (h2 : n2 ∈ sixPlaneNormals) : equalDirection n1 n2 = true ↔ n1 = n2 := by
  rcases (mem_sixPlaneNormals_iff n1).mp h1 with rfl | rfl | rfl | rfl | rfl | rfl <;>
    rcases (mem_sixPlaneNormals_iff n2).mp h2 with rfl | rfl | rfl | rfl | rfl | rfl <;>
    decide

theorem distSq_small_iff (p q : Vec3) : 25 * distSq p q < 1 ↔ p = q := by
  constructor
  · intro h
    simp only [distSq, normSq, dotV, Vec3_sub_def] at h
    have hx : 0 ≤ (p.x - q.x) * (p.x - q.x) := mul_self_nonneg _
    have hy : 0 ≤ (p.y - q.y) * (p.y - q.y) := mul_self_nonneg _
    have hz : 0 ≤ (p.z - q.z) * (p.z - q.z) := mul_self_nonneg _
    have hx0 : (p.x - q.x) * (p.x - q.x) ≤ 0 := by linarith
    have hy0 : (p.y - q.y) * (p.y - q.y) ≤ 0 := by linarith
    have hz0 : (p.z - q.z) * (p.z - q.z) ≤ 0 := by linarith
    have ex : p.x - q.x = 0 := mul_self_eq_zero.mp (le_antisymm hx0 hx)
    have ey : p.y - q.y = 0 := mul_self_eq_zero.mp (le_antisymm hy0 hy)
    have ez : p.z - q.z = 0 := mul_self_eq_zero.mp (le_antisymm hz0 hz)
    ext <;> omega
  · rintro rfl
    simp [distSq, normSq, dotV, Vec3_sub_def]

theorem mem_gridCoords (N : ℕ) (q : ℤ) :
    q ∈ gridCoords N ↔ ∃ i : ℕ, i < N ∧ q = 2 * (i : ℤ) - ((N : ℤ) - 1) := by
  unfold gridCoords
  rw [List.mem_map]
  constructor
  · rintro ⟨i, hi, rfl⟩
    exact ⟨i, List.mem_range.mp hi, rfl⟩
  · rintro ⟨i, hi, rfl⟩
    exact ⟨i, List.mem_range.mpr hi, rfl⟩

theorem gridCoords_neg (N : ℕ) (q : ℤ) (h : q ∈ gridCoords N) : -q ∈ gridCoords N := by
  rw [mem_gridCoords] at h ⊢
  obtain ⟨i, hi, rfl⟩ := h
  refine ⟨N - 1 - i, by omega, by omega⟩

theorem mem_initialFinishData_iff (N : ℕ) (colors : Fin 6 → String) (e : CubeElement) :
    e ∈ initialFinishData N colors ↔
      (∃ x ∈ gridCoords N, ∃ z ∈ gridCoords N,
        e = ⟨colors 0, ⟨x, (N : ℤ), z⟩, ⟨0, 1, 0⟩, decide (x = 0 ∧ z = 0)⟩ ∨
        e = ⟨colors 1, ⟨x, -(N : ℤ), z⟩, ⟨0, -1, 0⟩, decide (x = 0 ∧ z = 0)⟩) ∨
      (∃ y ∈ gridCoords N, ∃ z ∈ gridCoords N,
        e = ⟨colors 2, ⟨-(N : ℤ), y, z⟩, ⟨-1, 0, 0⟩, decide (y = 0 ∧ z = 0)⟩ ∨
        e = ⟨colors 3, ⟨(N : ℤ), y, z⟩, ⟨1, 0, 0⟩, decide (y = 0 ∧ z = 0)⟩) ∨
      (∃ x ∈ gridCoords N, ∃ y ∈ gridCoords N,
        e = ⟨colors 4, ⟨x, y, (N : ℤ)⟩, ⟨0, 0, 1⟩, decide (x = 0 ∧ y = 0)⟩ ∨
        e = ⟨colors 5, ⟨x, y, -(N : ℤ)⟩, ⟨0, 0, -1⟩, decide (x = 0 ∧ y = 0)⟩) := by
  simp [initialFinishData, List.mem_append, List.mem_flatMap, or_assoc]

theorem mem_solvedVals_iff (N : ℕ) (v : Vec3 × Vec3) :
    v ∈ solvedVals N ↔ MemSolved N v := by
  have hbase : v ∈ solvedVals N ↔
      ∃ e ∈ initialFinishData N defaultColors, valPN e = v := by
    simp [solvedVals, valsOf, List.mem_map]
  rw [hbase]
  constructor
  · rintro ⟨e, he, rfl⟩
    rw [mem_initialFinishData_iff] at he
    rcases he with ⟨x, hx, z, hz, rfl | rfl⟩ | ⟨y, hy, z, hz, rfl | rfl⟩ |
      ⟨x, hx, y, hy, rfl | rfl⟩ <;>
      refine ⟨by simp [mem_sixPlaneNormals_iff, valPN], by simp [valPN, dotV], ?_⟩ <;>
      intro m hm hperp <;>
      rcases (mem_sixPlaneNormals_iff m).mp hm with rfl | rfl | rfl | rfl | rfl | rfl <;>
      simp only [valPN, dotV] at hperp ⊢ <;>
      first
        | (exfalso; omega)
        | simpa using hx
        | simpa using hz
        | simpa using hy
        | simpa using gridCoords_neg N _ hx
        | simpa using gridCoords_neg N _ hz
        | simpa using gridCoords_neg N _ hy
  · rintro ⟨hn, hface, hgrid⟩
    obtain ⟨p, n⟩ := v
    simp only at hn hface hgrid
    rcases (mem_sixPlaneNormals_iff n).mp hn with hv | hv | hv | hv | hv | hv <;> subst hv
    · have hx : p.x ∈ gridCoords N := by
        have := hgrid ⟨1, 0, 0⟩ (by simp [mem_sixPlaneNormals_iff]) (by norm_num [dotV])
        simpa [dotV] using this
      have hz : p.z ∈ gridCoords N := by
        have := hgrid ⟨0, 0, 1⟩ (by simp [mem_sixPlaneNormals_iff]) (by norm_num [dotV])
        simpa [dotV] using this
      have hy : p.y = (N : ℤ) := by simpa [dotV] using hface
      refine ⟨⟨defaultColors 0, ⟨p.x, (N : ℤ), p.z⟩, ⟨0, 1, 0⟩,
        decide (p.x = 0 ∧ p.z = 0)⟩, ?_, ?_⟩
      · rw [mem_initialFinishData_iff]
        exact Or.inl ⟨p.x, hx, p.z, hz, Or.inl rfl⟩
      · simp only [valPN, Prod.mk.injEq]
        exact ⟨by ext <;> simp [hy], trivial⟩
    · have hx : p.x ∈ gridCoords N := by
        have := hgrid ⟨1, 0, 0⟩ (by simp [mem_sixPlaneNormals_iff]) (by norm_num [dotV])
        simpa [dotV] using this
      have hz : p.z ∈ gridCoords N := by
        have := hgrid ⟨0, 0, 1⟩ (by simp [mem_sixPlaneNormals_iff]) (by norm_num [dotV])
        simpa [dotV] using this
      have hy : p.y = -(N : ℤ) := by
        have h := hface
        simp only [dotV] at h
        omega
      refine ⟨⟨defaultColors 1, ⟨p.x, -(N : ℤ), p.z⟩, ⟨0, -1, 0⟩,
        decide (p.x = 0 ∧ p.z = 0)⟩, ?_, ?_⟩
      · rw [mem_initialFinishData_iff]
        exact Or.inl ⟨p.x, hx, p.z, hz, Or.inr rfl⟩
      · simp only [valPN, Prod.mk.injEq]
        exact ⟨by ext <;> simp [hy], trivial⟩
    · have hy : p.y ∈ gridCoords N := by
        have := hgrid ⟨0, 1, 0⟩ (by simp [mem_sixPlaneNormals_iff]) (by norm_num [dotV])
        simpa [dotV] using this
      have hz : p.z ∈ gridCoords N := by
        have := hgrid ⟨0, 0, 1⟩ (by simp [mem_sixPlaneNormals_iff]) (by norm_num [dotV])
        simpa [dotV] using this
      have hx : p.x = -(N : ℤ) := by
        have h := hface
        simp only [dotV] at h
        omega
      refine ⟨⟨defaultColors 2, ⟨-(N : ℤ), p.y, p.z⟩, ⟨-1, 0, 0⟩,
        decide (p.y = 0 ∧ p.z = 0)⟩, ?_, ?_⟩
      · rw [mem_initialFinishData_iff]
        exact Or.inr (Or.inl ⟨p.y, hy, p.z, hz, Or.inl rfl⟩)
      · simp only [valPN, Prod.mk.injEq]
        exact ⟨by ext <;> simp [hx], trivial⟩
    · have hy : p.y ∈ gridCoords N := by
        have := hgrid ⟨0, 1, 0⟩ (by simp [mem_sixPlaneNormals_iff]) (by norm_num [dotV])
        simpa [dotV] using this
      have hz : p.z ∈ gridCoords N := by
        have := hgrid ⟨0, 0, 1⟩ (by simp [mem_sixPlaneNormals_iff]) (by norm_num [dotV])
        simpa [dotV] using this
      have hx : p.x = (N : ℤ) := by simpa [dotV] using hface
      refine ⟨⟨defaultColors 3, ⟨(N : ℤ), p.y, p.z⟩, ⟨1, 0, 0⟩,
        decide (p.y = 0 ∧ p.z = 0)⟩, ?_, ?_⟩
      · rw [mem_initialFinishData_iff]
        exact Or.inr (Or.inl ⟨p.y, hy, p.z, hz, Or.inr rfl⟩)
      · simp only [valPN, Prod.mk.injEq]
        exact ⟨by ext <;> simp [hx], trivial⟩
    · have hx : p.x ∈ gridCoords N := by
        have := hgrid ⟨1, 0, 0⟩ (by simp [mem_sixPlaneNormals_iff]) (by norm_num [dotV])
        simpa [dotV] using this
      have hy : p.y ∈ gridCoords N := by
        have := hgrid ⟨0, 1, 0⟩ (by simp [mem_sixPlaneNormals_iff]) (by norm_num [dotV])
        simpa [dotV] using this
      have hz : p.z = (N : ℤ) := by simpa [dotV] using hface
      refine ⟨⟨defaultColors 4, ⟨p.x, p.y, (N : ℤ)⟩, ⟨0, 0, 1⟩,
        decide (p.x = 0 ∧ p.y = 0)⟩, ?_, ?_⟩
      · rw [mem_initialFinishData_iff]
        exact Or.inr (Or.inr ⟨p.x, hx, p.y, hy, Or.inl rfl⟩)
      · simp only [valPN, Prod.mk.injEq]
        exact ⟨by ext <;> simp [hz], trivial⟩
    · have hx : p.x ∈ gridCoords N := by
        have := hgrid ⟨1, 0, 0⟩ (by simp [mem_sixPlaneNormals_iff]) (by norm_num [dotV])
        simpa [dotV] using this
      have hy : p.y ∈ gridCoords N := by
        have := hgrid ⟨0, 1, 0⟩ (by simp [mem_sixPlaneNormals_iff]) (by norm_num [dotV])
        simpa [dotV] using this
      have hz : p.z = -(N : ℤ) := by
        have h := hface
        simp only [dotV] at h
        omega
      refine ⟨⟨defaultColors 5, ⟨p.x, p.y, -(N : ℤ)⟩, ⟨0, 0, -1⟩,
        decide (p.x = 0 ∧ p.y = 0)⟩, ?_, ?_⟩
      · rw [mem_initialFinishData_iff]
        exact Or.inr (Or.inr ⟨p.x, hx, p.y, hy, Or.inr rfl⟩)
      · simp only [valPN, Prod.mk.injEq]
        exact ⟨by ext <;> simp [hz], trivial⟩

theorem mem_innerPair {α : Type} (L : List ℤ) (f g : ℤ → α) (y : α) :
    y ∈ L.flatMap (fun v => [f v, g v]) ↔ ∃ v ∈ L, y = f v ∨ y = g v := by
  simp [List.mem_flatMap, eq_comm]

theorem nodup_innerPair {α : Type} (L : List ℤ) (hL : L.Nodup) (f g : ℤ → α)
    (hf : ∀ v v', f v = f v' → v = v')
    (hg : ∀ v v', g v = g v' → v = v')
    (hfg : ∀ v v', f v ≠ g v') :
    (L.flatMap (fun v => [f v, g v])).Nodup := by
  induction L with
  | nil => simp
  | cons v L' ih =>
    rw [List.flatMap_cons, List.nodup_append]
    obtain ⟨hv, hL'⟩ := List.nodup_cons.mp hL
    refine ⟨by simp [hfg v v], ih hL' , ?_⟩
    intro y hy hy'
    rcases List.mem_cons.mp hy with rfl | hy2
    · rcases (mem_innerPair L' f g _).mp hy' with ⟨w, hw, hwe | hwe⟩
      · exact hv ((hf v w hwe) ▸ hw)
      · exact hfg v w hwe
    · rcases List.mem_cons.mp hy2 with rfl | hy3
      · rcases (mem_innerPair L' f g _).mp hy' with ⟨w, hw, hwe | hwe⟩
        · exact hfg w v hwe.symm
        · exact hv ((hg v w hwe) ▸ hw)
      · simp at hy3

theorem nodup_pairBlock {α : Type} (M L : List ℤ) (hM : M.Nodup) (hL : L.Nodup)
    (f g : ℤ → ℤ → α)
    (hf : ∀ u v u' v', f u v = f u' v' → u = u' ∧ v = v')
    (hg : ∀ u v u' v', g u v = g u' v' → u = u' ∧ v = v')
    (hfg : ∀ u v u' v', f u v ≠ g u' v') :
    (M.flatMap fun u => L.flatMap fun v => [f u v, g u v]).Nodup := by
  induction M with
  | nil => simp
  | cons u M' ih =>
    rw [List.flatMap_cons, List.nodup_append]
    obtain ⟨hu, hM'⟩ := List.nodup_cons.mp hM
    refine ⟨nodup_innerPair L hL (f u) (g u)
        (fun v v' h => (hf u v u v' h).2)
        (fun v v' h => (hg u v u v' h).2)
        (fun v v' => hfg u v u v'), ih hM', ?_⟩
    intro y hy hy'
    rcases (mem_innerPair L (f u) (g u) _).mp hy with ⟨v, _, rfl | rfl⟩ <;>
      rcases List.mem_flatMap.mp hy' with ⟨u', hu', hy2⟩ <;>
      rcases (mem_innerPair L (f u') (g u') _).mp hy2 with ⟨v', _, hwe | hwe⟩
    · exact hu ((hf u v u' v' hwe).1 ▸ hu')
    · exact hfg u v u' v' hwe
    · exact hfg u' v' u v hwe.symm
    · exact hu ((hg u v u' v' hwe).1 ▸ hu')

theorem gridCoords_nodup (N : ℕ) : (gridCoords N).Nodup := by
  unfold gridCoords
  refine List.Nodup.map ?_ (List.nodup_range N)
  intro i j h
  have h2 : 2 * (i : ℤ) - ((N : ℤ) - 1) = 2 * (j : ℤ) - ((N : ℤ) - 1) := h
  omega

theorem pairBlock_disjoint {α : Type} (M L M' L' : List ℤ) (f g fq gq : ℤ → ℤ → α)
    (h : ∀ u v u' v', f u v ≠ fq u' v' ∧ f u v ≠ gq u' v' ∧ g u v ≠ fq u' v' ∧
      g u v ≠ gq u' v') :
    (M.flatMap fun u => L.flatMap fun v => [f u v, g u v]).Disjoint
      (M'.flatMap fun u => L'.flatMap fun v => [fq u v, gq u v]) := by
  intro y hy hy'
  rcases List.mem_flatMap.mp hy with ⟨u, _, hy1⟩
  rcases List.mem_flatMap.mp hy' with ⟨u', _, hy2⟩
  rcases (mem_innerPair L (f u) (g u) y).mp hy1 with ⟨v, _, rfl | rfl⟩ <;>
    rcases (mem_innerPair L' (fq u') (gq u') _).mp hy2 with ⟨v', _, he | he⟩
  · exact (h u v u' v').1 he
  · exact (h u v u' v').2.1 he
  · exact (h u v u' v').2.2.1 he
  · exact (h u v u' v').2.2.2 he

theorem solvedVals_nodup (N : ℕ) : (solvedVals N).Nodup := by
  rw [show solvedVals N =
      (((initialFinishData N defaultColors).map valPN : List (Vec3 × Vec3)) :
        Multiset (Vec3 × Vec3)) from rfl, Multiset.coe_nodup]
  unfold initialFinishData
  rw [List.map_append, List.map_append]
  simp only [List.map_flatMap, List.map_cons, List.map_nil, valPN]
  have hgrid := gridCoords_nodup N
  have injTop : ∀ u v u' v' : ℤ,
      ((⟨⟨u, (N : ℤ), v⟩, ⟨0, 1, 0⟩⟩ : Vec3 × Vec3) = ⟨⟨u', (N : ℤ), v'⟩, ⟨0, 1, 0⟩⟩) →
        u = u' ∧ v = v' := by
    intro u v u' v' h
    have h2 := congrArg Prod.fst h
    simp [Vec3.ext_iff] at h2
    exact h2
  have injBot : ∀ u v u' v' : ℤ,
      ((⟨⟨u, -(N : ℤ), v⟩, ⟨0, -1, 0⟩⟩ : Vec3 × Vec3) = ⟨⟨u', -(N : ℤ), v'⟩, ⟨0, -1, 0⟩⟩) →
        u = u' ∧ v = v' := by
    intro u v u' v' h
    have h2 := congrArg Prod.fst h
    simp [Vec3.ext_iff] at h2
    exact h2
  have injL : ∀ u v u' v' : ℤ,
      ((⟨⟨-(N : ℤ), u, v⟩, ⟨-1, 0, 0⟩⟩ : Vec3 × Vec3) = ⟨⟨-(N : ℤ), u', v'⟩, ⟨-1, 0, 0⟩⟩) →
        u = u' ∧ v = v' := by
    intro u v u' v' h
    have h2 := congrArg Prod.fst h
    simp [Vec3.ext_iff] at h2
    exact h2
  have injR : ∀ u v u' v' : ℤ,
      ((⟨⟨(N : ℤ), u, v⟩, ⟨1, 0, 0⟩⟩ : Vec3 × Vec3) = ⟨⟨(N : ℤ), u', v'⟩, ⟨1, 0, 0⟩⟩) →
        u = u' ∧ v = v' := by
    intro u v u' v' h
    have h2 := congrArg Prod.fst h
    simp [Vec3.ext_iff] at h2
    exact h2
  have injF : ∀ u v u' v' : ℤ,
      ((⟨⟨u, v, (N : ℤ)⟩, ⟨0, 0, 1⟩⟩ : Vec3 × Vec3) = ⟨⟨u', v', (N : ℤ)⟩, ⟨0, 0, 1⟩⟩) →
        u = u' ∧ v = v' := by
    intro u v u' v' h
    have h2 := congrArg Prod.fst h
    simp [Vec3.ext_iff] at h2
    exact h2
  have injB : ∀ u v u' v' : ℤ,
      ((⟨⟨u, v, -(N : ℤ)⟩, ⟨0, 0, -1⟩⟩ : Vec3 × Vec3) = ⟨⟨u', v', -(N : ℤ)⟩, ⟨0, 0, -1⟩⟩) →
        u = u' ∧ v = v' := by
    intro u v u' v' h
    have h2 := congrArg Prod.fst h
    simp [Vec3.ext_iff] at h2
    exact h2
  refine List.nodup_append.mpr ⟨List.nodup_append.mpr ⟨?_, ?_, ?_⟩, ?_, ?_⟩
  · exact nodup_pairBlock _ _ hgrid hgrid _ _ injTop injBot
      (fun u v u' v' h => by have h2 := congrArg Prod.snd h; simp [Vec3.ext_iff] at h2)
  · exact nodup_pairBlock _ _ hgrid hgrid _ _ injL injR
      (fun u v u' v' h => by have h2 := congrArg Prod.snd h; simp [Vec3.ext_iff] at h2)
  · exact pairBlock_disjoint _ _ _ _ _ _ _ _
      (fun u v u' v' => ⟨fun h => by have h2 := congrArg Prod.snd h; simp [Vec3.ext_iff] at h2,
        fun h => by have h2 := congrArg Prod.snd h; simp [Vec3.ext_iff] at h2,
        fun h => by have h2 := congrArg Prod.snd h; simp [Vec3.ext_iff] at h2,
        fun h => by have h2 := congrArg Prod.snd h; simp [Vec3.ext_iff] at h2⟩)
  · exact nodup_pairBlock _ _ hgrid hgrid _ _ injF injB
      (fun u v u' v' h => by have h2 := congrArg Prod.snd h; simp [Vec3.ext_iff] at h2)
  · rw [List.disjoint_append_left]
    constructor
    · exact pairBlock_disjoint _ _ _ _ _ _ _ _
        (fun u v u' v' => ⟨fun h => by have h2 := congrArg Prod.snd h; simp [Vec3.ext_iff] at h2,
          fun h => by have h2 := congrArg Prod.snd h; simp [Vec3.ext_iff] at h2,
          fun h => by have h2 := congrArg Prod.snd h; simp [Vec3.ext_iff] at h2,
          fun h => by have h2 := congrArg Prod.snd h; simp [Vec3.ext_iff] at h2⟩)
    · exact pairBlock_disjoint _ _ _ _ _ _ _ _
        (fun u v u' v' => ⟨fun h => by have h2 := congrArg Prod.snd h; simp [Vec3.ext_iff] at h2,
          fun h => by have h2 := congrArg Prod.snd h; simp [Vec3.ext_iff] at h2,
          fun h => by have h2 := congrArg Prod.snd h; simp [Vec3.ext_iff] at h2,
          fun h => by have h2 := congrArg Prod.snd h; simp [Vec3.ext_iff] at h2⟩)

theorem gridCoords_length (N : ℕ) : (gridCoords N).length = N := by
  simp [gridCoords]

theorem initialFinishData_length (N : ℕ) (colors : Fin 6 → String) :
    (initialFinishData N colors).length = 6 * N ^ 2 := by
  unfold initialFinishData
  simp [List.length_append, List.length_flatMap, Function.comp_def, List.map_const',
    List.sum_replicate, gridCoords_length, smul_eq_mul]
  ring

theorem solved_countP_normal (N : ℕ) (n : Vec3) (hn : n ∈ sixPlaneNormals) :
    List.countP (fun v => decide (v.2 = n))
      ((initialFinishData N defaultColors).map valPN) = N ^ 2 := by
  rcases (mem_sixPlaneNormals_iff n).mp hn with rfl | rfl | rfl | rfl | rfl | rfl <;>
  · unfold initialFinishData
    simp only [List.map_append, List.map_flatMap, List.map_cons, List.map_nil, valPN]
    rw [List.countP_append, List.countP_append]
    simp [List.countP_flatMap, List.countP_cons, List.countP_nil, Vec3.ext_iff,
      Function.comp_def, List.map_const', List.sum_replicate, gridCoords_length, smul_eq_mul]
    ring

theorem rot_right_inverse (axis : Vec3) (hax : axis ∈ unitAxes) (c s : ℤ)
    (hcs : (c, s) ∈ quarterPairs) (v : Vec3) :
    makeRotationAxis axis c s (makeRotationAxis axis c (-s) v) = v := by
  have h := rot_left_inverse axis hax c (-s) (quarterPairs_neg c s hcs) v
  rwa [neg_neg] at h

theorem dotV_sub_left (a b c : Vec3) : dotV (a - b) c = dotV a c - dotV b c := by
  simp only [dotV, Vec3_sub_def]
  ring

theorem memSolved_pairRot (N : ℕ) (axis : Vec3) (hax : axis ∈ unitAxes) (c s : ℤ)
    (hcs : (c, s) ∈ quarterPairs) (v : Vec3 × Vec3) (h : MemSolved N v) :
    MemSolved N (pairRot (makeRotationAxis axis c s) v) := by
  obtain ⟨hn, hface, hgrid⟩ := h
  refine ⟨rot_canonical axis hax c s hcs _ hn, ?_, ?_⟩
  · show dotV (makeRotationAxis axis c s v.1) (makeRotationAxis axis c s v.2) = (N : ℤ)
    rw [rot_dot axis hax c s hcs]
    exact hface
  · intro m hm hperp
    have hm' : makeRotationAxis axis c (-s) m ∈ sixPlaneNormals :=
      rot_canonical axis hax c (-s) (quarterPairs_neg c s hcs) m hm
    have hperp' : dotV (makeRotationAxis axis c (-s) m) v.2 = 0 := by
      have h2 := rot_dot axis hax c s hcs (makeRotationAxis axis c (-s) m) v.2
      rw [rot_right_inverse axis hax c s hcs] at h2
      rw [← h2]
      exact hperp
    have hg := hgrid _ hm' hperp'
    have h3 := rot_dot axis hax c s hcs v.1 (makeRotationAxis axis c (-s) m)
    rw [rot_right_inverse axis hax c s hcs] at h3
    show dotV (makeRotationAxis axis c s v.1) m ∈ gridCoords N
    rw [h3]
    exact hg

theorem solvedVals_map_pairRot (N : ℕ) (axis : Vec3) (hax : axis ∈ unitAxes) (c s : ℤ)
    (hcs : (c, s) ∈ quarterPairs) :
    (solvedVals N).map (pairRot (makeRotationAxis axis c s)) = solvedVals N := by
  have hinj : Function.Injective (pairRot (makeRotationAxis axis c s)) := by
    intro v w h
    have h1 := congrArg (pairRot (makeRotationAxis axis c (-s))) h
    simpa [pairRot, rot_left_inverse axis hax c s hcs] using h1
  rw [Multiset.Nodup.ext (Multiset.Nodup.map hinj (solvedVals_nodup N)) (solvedVals_nodup N)]
  intro v
  constructor
  · intro hv
    obtain ⟨y, hy, rfl⟩ := Multiset.mem_map.mp hv
    exact (mem_solvedVals_iff N _).mpr
      (memSolved_pairRot N axis hax c s hcs y ((mem_solvedVals_iff N y).mp hy))
  · intro hv
    refine Multiset.mem_map.mpr ⟨pairRot (makeRotationAxis axis c (-s)) v, ?_, ?_⟩
    · exact (mem_solvedVals_iff N _).mpr
        (memSolved_pairRot N axis hax c (-s) (quarterPairs_neg c s hcs) v
          ((mem_solvedVals_iff N v).mp hv))
    · simp [pairRot, rot_right_inverse axis hax c s hcs]

theorem truncQ_intCast_div_four_nonneg (m : ℤ) (hm : 0 ≤ m) :
    truncQ ((m : ℚ) / 4) = Int.tdiv m 4 := by
  have h4 : (0 : ℚ) < 4 := by norm_num
  have hb := Int.tdiv_add_tmod m 4
  have h0 : 0 ≤ Int.tmod m 4 := Int.tmod_nonneg _ hm
  have h1 : Int.tmod m 4 < 4 := Int.tmod_lt_of_pos _ (by norm_num)
  refine truncQ_unique _ _ (div_nonneg (by exact_mod_cast hm) (by norm_num)) ?_ ?_
  · rw [le_div_iff₀ h4]
    have hle : (4 * Int.tdiv m 4 : ℤ) ≤ m := by omega
    calc ((Int.tdiv m 4 : ℤ) : ℚ) * 4 = ((4 * Int.tdiv m 4 : ℤ) : ℚ) := by push_cast; ring
    _ ≤ (m : ℚ) := by exact_mod_cast hle
  · rw [div_lt_iff₀ h4]
    have hlt : m < 4 * (Int.tdiv m 4 + 1) := by omega
    calc (m : ℚ) < ((4 * (Int.tdiv m 4 + 1) : ℤ) : ℚ) := by exact_mod_cast hlt
    _ = (((Int.tdiv m 4 : ℤ) : ℚ) + 1) * 4 := by push_cast; ring

theorem truncQ_intCast_div_four (m : ℤ) : truncQ ((m : ℚ) / 4) = Int.tdiv m 4 := by
  rcases le_or_lt 0 m with hm | hm
  · exact truncQ_intCast_div_four_nonneg m hm
  · have hneg : ((m : ℚ) / 4) = -(((-m : ℤ) : ℚ) / 4) := by push_cast; ring
    rw [hneg, truncQ_neg, truncQ_intCast_div_four_nonneg (-m) (by omega), Int.neg_tdiv]
    omega

theorem tmod_four_facts (m : ℤ) :
    -3 ≤ Int.tmod m 4 ∧ Int.tmod m 4 ≤ 3 ∧ (Int.tmod m 4) % 4 = m % 4 ∧
      (Int.tmod m 4 = 0 ↔ m % 4 = 0) := by
  have hb := Int.tdiv_add_tmod m 4
  have hb2 := Int.tdiv_add_tmod (-m) 4
  have hneg := Int.neg_tdiv m 4
  rcases le_or_lt 0 m with hm | hm
  · have h0 : 0 ≤ Int.tmod m 4 := Int.tmod_nonneg _ hm
    have h1 : Int.tmod m 4 < 4 := Int.tmod_lt_of_pos _ (by norm_num)
    omega
  · have h0 : 0 ≤ Int.tmod (-m) 4 := Int.tmod_nonneg _ (by omega)
    have h1 : Int.tmod (-m) 4 < 4 := Int.tmod_lt_of_pos _ (by norm_num)
    omega

theorem jsMod_intCast_four (m : ℤ) : jsMod ((m : ℚ)) 4 = ((Int.tmod m 4 : ℤ) : ℚ) := by
  unfold jsMod
  rw [truncQ_intCast_div_four]
  have hb : Int.tmod m 4 = m - 4 * Int.tdiv m 4 := by
    have := Int.tdiv_add_tmod m 4
    omega
  rw [hb]
  push_cast
  ring

theorem angleCS_intCast (r : ℤ) : angleCS ((r : ℚ)) = (qcosInt r, qsinInt r) := by
  unfold angleCS
  rw [if_pos (Rat.den_intCast r), Rat.num_intCast]

theorem overAngleTolerance_int (r : ℤ) (h1 : -3 ≤ r) (h2 : r ≤ 3) :
    overAngleTolerance ((r : ℚ)) = true ↔ r ≠ 0 := by
  unfold overAngleTolerance
  rw [decide_eq_true_eq]
  interval_cases r <;> norm_num

theorem qcs_tmod (m : ℤ) :
    qcosInt (Int.tmod m 4) = qcosInt m ∧ qsinInt (Int.tmod m 4) = qsinInt m := by
  have h := (tmod_four_facts m).2.2.1
  unfold qcosInt qsinInt
  rw [h]
  exact ⟨rfl, rfl⟩

theorem qcs_mem_quarterPairs (m : ℤ) : (qcosInt m, qsinInt m) ∈ quarterPairs := by
  unfold qcosInt qsinInt
  have h0 : 0 ≤ m % 4 := Int.emod_nonneg m (by norm_num)
  have h1 : m % 4 < 4 := Int.emod_lt_of_pos m (by norm_num)
  have hc : m % 4 = 0 ∨ m % 4 = 1 ∨ m % 4 = 2 ∨ m % 4 = 3 := by omega
  rcases hc with h | h | h | h <;> simp [h, quarterPairs]

theorem updateStateAfterRotate_eq (squares : List CubeElement) (isActive : CubeElement → Bool)
    (axis : Vec3) (a : ℚ) :
    updateStateAfterRotate squares isActive axis a =
      if overAngleTolerance (jsMod (a + getNeededRotateAngle a) 4) then
        assignPN squares isActive
          ((squares.filter isActive).flatMap
            (matchedPN (squares.filter isActive)
              (makeRotationAxis axis (angleCS (jsMod (a + getNeededRotateAngle a) 4)).1
                (angleCS (jsMod (a + getNeededRotateAngle a) 4)).2)))
      else some squares := rfl

theorem inRotatePlane_eq_planePN (controlSquare e : CubeElement) (axis : Vec3) :
    inRotatePlane controlSquare e axis = planePN (valPN controlSquare) (valPN e) axis := rfl

theorem planePN_pairRot (cv : Vec3 × Vec3) (axis : Vec3) (hax : axis ∈ unitAxes) (c s : ℤ)
    (hcs : (c, s) ∈ quarterPairs) (v : Vec3 × Vec3) (hn : v.2 ∈ sixPlaneNormals) :
    planePN cv (pairRot (makeRotationAxis axis c s) v) axis = planePN cv v axis := by
  unfold planePN pairRot
  rw [decide_eq_decide]
  show dotV (cv.1 - normalizeV cv.2 -
      (makeRotationAxis axis c s v.1 - normalizeV (makeRotationAxis axis c s v.2))) axis = 0 ↔ _
  rw [normalizeV_six _ (rot_canonical axis hax c s hcs _ hn), normalizeV_six _ hn, ← rot_sub]
  have h1 : dotV (makeRotationAxis axis c s (v.1 - v.2)) axis = dotV (v.1 - v.2) axis := by
    have h2 := rot_dot axis hax c s hcs (v.1 - v.2) axis
    rwa [rot_axis_fixed axis hax c s hcs] at h2
  simp only [dotV_sub_left] at h1 ⊢
  omega

theorem planePN_rotControl (cv : Vec3 × Vec3) (hcn : cv.2 ∈ sixPlaneNormals) (axis : Vec3)
    (hax : axis ∈ unitAxes) (c s : ℤ) (hcs : (c, s) ∈ quarterPairs) (v : Vec3 × Vec3) :
    planePN (pairRot (makeRotationAxis axis c s) cv) v axis = planePN cv v axis := by
  unfold planePN pairRot
  rw [decide_eq_decide]
  show dotV (makeRotationAxis axis c s cv.1 - normalizeV (makeRotationAxis axis c s cv.2) -
      (v.1 - normalizeV v.2)) axis = 0 ↔ _
  rw [normalizeV_six _ (rot_canonical axis hax c s hcs _ hcn), normalizeV_six _ hcn, ← rot_sub]
  have h1 : dotV (makeRotationAxis axis c s (cv.1 - cv.2)) axis = dotV (cv.1 - cv.2) axis := by
    have h2 := rot_dot axis hax c s hcs (cv.1 - cv.2) axis
    rwa [rot_axis_fixed axis hax c s hcs] at h2
  simp only [dotV_sub_left] at h1 ⊢
  omega

theorem filter_map_valPN (s : List CubeElement) (p : Vec3 × Vec3 → Bool) :
    (s.filter (fun e => p (valPN e))).map valPN = (s.map valPN).filter p := by
  rw [List.filter_map]
  rfl

theorem GI_normal_canonical (N : ℕ) (s : List CubeElement) (hGI : valsOf s = solvedVals N) :
    ∀ e ∈ s, e.normal ∈ sixPlaneNormals := by
  intro e he
  have hv : valPN e ∈ valsOf s := by
    exact Multiset.mem_coe.mpr (List.mem_map_of_mem valPN he)
  rw [hGI] at hv
  exact ((mem_solvedVals_iff N _).mp hv).1

theorem GI_vals_mem (N : ℕ) (s : List CubeElement) (hGI : valsOf s = solvedVals N) :
    ∀ e ∈ s, MemSolved N (valPN e) := by
  intro e he
  have hv : valPN e ∈ valsOf s := Multiset.mem_coe.mpr (List.mem_map_of_mem valPN he)
  rw [hGI] at hv
  exact (mem_solvedVals_iff N _).mp hv

theorem active_vals_invariant (N : ℕ) (axis : Vec3) (hax : axis ∈ unitAxes) (c s : ℤ)
    (hcs : (c, s) ∈ quarterPairs) (cv : Vec3 × Vec3) :
    Multiset.map (pairRot (makeRotationAxis axis c s))
        ((solvedVals N).filter (fun v => planePN cv v axis = true)) =
      (solvedVals N).filter (fun v => planePN cv v axis = true) := by
  have hcongr : (solvedVals N).filter
        ((fun v => planePN cv v axis = true) ∘ pairRot (makeRotationAxis axis c s)) =
      (solvedVals N).filter (fun v => planePN cv v axis = true) := by
    refine Multiset.filter_congr ?_
    intro v hv
    have hn : v.2 ∈ sixPlaneNormals := ((mem_solvedVals_iff N v).mp hv).1
    show planePN cv (pairRot (makeRotationAxis axis c s) v) axis = true ↔ _
    rw [planePN_pairRot cv axis hax c s hcs v hn]
  calc Multiset.map (pairRot (makeRotationAxis axis c s))
        ((solvedVals N).filter (fun v => planePN cv v axis = true))
      = Multiset.map (pairRot (makeRotationAxis axis c s))
        ((solvedVals N).filter
          ((fun v => planePN cv v axis = true) ∘ pairRot (makeRotationAxis axis c s))) := by
        rw [hcongr]
    _ = (Multiset.map (pairRot (makeRotationAxis axis c s)) (solvedVals N)).filter
          (fun v => planePN cv v axis = true) :=
        (Multiset.filter_map _ _ _).symm
    _ = (solvedVals N).filter (fun v => planePN cv v axis = true) := by
        rw [solvedVals_map_pairRot N axis hax c s hcs]

theorem filter_map_single (x : Vec3 × Vec3) (P : CubeElement → Bool) :
    ∀ l : List CubeElement, (∀ b ∈ l, (P b = true ↔ valPN b = x)) →
      (l.map valPN).countP (fun v => decide (x = v)) = 1 →
      (l.filter P).map (fun b => (b.normal, b.pos)) = [(x.2, x.1)] := by
  intro l
  induction l with
  | nil => intro _ hcount; simp at hcount
  | cons b t ih =>
    intro hP hcount
    rw [List.map_cons, List.countP_cons] at hcount
    by_cases hPb : P b = true
    · have hvb : valPN b = x := (hP b (List.mem_cons_self b t)).mp hPb
      rw [if_pos (by rw [hvb, decide_eq_true_eq])] at hcount
      have htz : (t.map valPN).countP (fun v => decide (x = v)) = 0 := by omega
      rw [List.filter_cons_of_pos hPb]
      have ht : t.filter P = [] := by
        rw [List.filter_eq_nil_iff]
        intro a ha hPa
        have hva : valPN a = x := (hP a (List.mem_cons_of_mem b ha)).mp hPa
        have hpos : 0 < (t.map valPN).countP (fun v => decide (x = v)) :=
          List.countP_pos_iff.mpr ⟨valPN a, List.mem_map_of_mem valPN ha, by
            rw [hva, decide_eq_true_eq]⟩
        omega
      rw [ht]
      have h2 : (b.normal, b.pos) = (x.2, x.1) := by
        rw [← hvb]; rfl
      simp [h2]
    · rw [List.filter_cons_of_neg hPb]
      refine ih (fun a ha => hP a (List.mem_cons_of_mem b ha)) ?_
      have hne : decide (x = valPN b) = false := by
        rw [decide_eq_false_iff_not]
        intro hvb
        exact hPb ((hP b (List.mem_cons_self b t)).mpr hvb.symm)
      rw [if_neg (by rw [hne]; exact Bool.false_ne_true)] at hcount
      simpa using hcount

theorem flatMap_singleton_eq_map {α β : Type} (g : α → β) (f : α → List β) :
    ∀ l : List α, (∀ a ∈ l, f a = [g a]) → l.flatMap f = l.map g := by
  intro l
  induction l with
  | nil => intro _; rfl
  | cons a t ih =>
    intro h
    rw [List.flatMap_cons, h a (List.mem_cons_self a t),
      ih (fun b hb => h b (List.mem_cons_of_mem a hb))]
    rfl

theorem assignPN_spec (P : CubeElement → Bool) (g : CubeElement → Vec3 × Vec3) :
    ∀ l : List CubeElement,
      assignPN l P ((l.filter P).map g) =
        some (l.map (fun e => if P e then { e with normal := (g e).1, pos := (g e).2 } else e)) := by
  intro l
  induction l with
  | nil => rfl
  | cons e t ih =>
    by_cases hP : P e = true
    · rw [List.filter_cons_of_pos hP, List.map_cons]
      simp only [assignPN, hP, if_true, ih, List.map_cons]
      rfl
    · rw [List.filter_cons_of_neg hP]
      simp only [assignPN, hP, if_false, ih, List.map_cons]
      rfl

theorem truncQ_intCast (j : ℤ) : truncQ ((j : ℚ)) = j := by
  unfold truncQ
  rw [Rat.num_intCast, Rat.den_intCast]
  simp

theorem getNeededRotateAngle_intCast (j : ℤ) : getNeededRotateAngle ((j : ℚ)) = 0 := by
  rw [getNeededRotateAngle_eq]
  have habs : |(j : ℚ)| = ((|j| : ℤ) : ℚ) := Int.cast_abs.symm
  have hmod : jsMod |(j : ℚ)| 1 = 0 := by
    rw [habs]
    unfold jsMod
    rw [div_one, truncQ_intCast]
    ring
  rw [hmod]
  have h12 : ¬((1 : ℚ) / 2 < 0) := by norm_num
  simp only [if_neg h12]
  split <;> norm_num

theorem total_angle_int (a : ℚ) : ∃ m : ℤ, a + getNeededRotateAngle a = (m : ℚ) := by
  rw [getNeededRotateAngle_eq]
  by_cases ha : 0 < a
  · rw [if_pos ha]
    have habs : |a| = a := abs_of_pos ha
    rw [habs]
    have hf := (jsMod_one_fract a (le_of_lt ha)).2.2
    by_cases hh : (1 : ℚ) / 2 < jsMod a 1
    · rw [if_pos hh]
      exact ⟨truncQ a + 1, by push_cast; linarith⟩
    · rw [if_neg hh]
      exact ⟨truncQ a, by linarith⟩
  · rw [if_neg ha]
    have ha' : (0 : ℚ) ≤ -a := by linarith
    have habs : |a| = -a := abs_of_nonpos (by linarith)
    rw [habs]
    have hf := (jsMod_one_fract (-a) ha').2.2
    by_cases hh : (1 : ℚ) / 2 < jsMod (-a) 1
    · rw [if_pos hh]
      exact ⟨-truncQ (-a) - 1, by push_cast; linarith⟩
    · rw [if_neg hh]
      exact ⟨-truncQ (-a), by push_cast; linarith⟩

theorem assignPN_nonactive (P : CubeElement → Bool) :
    ∀ (l : List CubeElement) (pn : List (Vec3 × Vec3)) (t : List CubeElement),
      assignPN l P pn = some t →
      ∀ (i : ℕ) (e : CubeElement), l[i]? = some e → P e = false → t[i]? = some e := by
  intro l
  induction l with
  | nil =>
    intro pn t ht i e he
    simp at he
  | cons b rest ih =>
    intro pn t ht i e he hPe
    by_cases hPb : P b = true
    · unfold assignPN at ht
      rw [if_pos hPb] at ht
      cases pn with
      | nil => exact Option.noConfusion ht
      | cons q pnRest =>
        rcases Option.map_eq_some'.mp ht with ⟨tail, htail, rfl⟩
        cases i with
        | zero =>
          rw [List.getElem?_cons_zero, Option.some_inj] at he
          rw [← he, hPb] at hPe
          exact Bool.noConfusion hPe
        | succ i =>
          rw [List.getElem?_cons_succ] at he ⊢
          exact ih pnRest tail htail i e he hPe
    · unfold assignPN at ht
      rw [if_neg hPb] at ht
      rcases Option.map_eq_some'.mp ht with ⟨tail, htail, rfl⟩
      cases i with
      | zero =>
        rw [List.getElem?_cons_zero] at he ⊢
        exact he
      | succ i =>
        rw [List.getElem?_cons_succ] at he ⊢
        exact ih pn tail htail i e he hPe

theorem act_vals_eq (N : ℕ) (s : List CubeElement) (hGI : valsOf s = solvedVals N)
    (cv : Vec3 × Vec3) (axis : Vec3) :
    (((s.filter (fun e => planePN cv (valPN e) axis)).map valPN : List (Vec3 × Vec3)) :
        Multiset (Vec3 × Vec3)) =
      (solvedVals N).filter (fun v => planePN cv v axis = true) := by
  have hfm := filter_map_valPN s (fun v => planePN cv v axis)
  rw [hfm]
  have hc : ((((s.map valPN).filter (fun v => planePN cv v axis)) : List (Vec3 × Vec3)) :
      Multiset (Vec3 × Vec3)) =
      Multiset.filter (fun v => planePN cv v axis = true)
        ((s.map valPN : List (Vec3 × Vec3)) : Multiset (Vec3 × Vec3)) := by
    simp [Multiset.filter_coe]
  rw [hc]
  exact congrArg (Multiset.filter (fun v => planePN cv v axis = true)) hGI

theorem act_count_one (N : ℕ) (s : List CubeElement) (hGI : valsOf s = solvedVals N)
    (axis : Vec3) (hax : axis ∈ unitAxes) (c sn : ℤ) (hcs : (c, sn) ∈ quarterPairs)
    (cv : Vec3 × Vec3) (a : CubeElement)
    (ha : a ∈ s.filter (fun e => planePN cv (valPN e) axis)) :
    ((s.filter (fun e => planePN cv (valPN e) axis)).map valPN).countP
        (fun v => decide (pairRot (makeRotationAxis axis c sn) (valPN a) = v)) = 1 := by
  suffices h : Multiset.count (pairRot (makeRotationAxis axis c sn) (valPN a))
      (((s.filter (fun e => planePN cv (valPN e) axis)).map valPN : List (Vec3 × Vec3)) :
        Multiset (Vec3 × Vec3)) = 1 from h
  rw [act_vals_eq N s hGI cv axis]
  have hnodup : ((solvedVals N).filter (fun v => planePN cv v axis = true)).Nodup :=
    (solvedVals_nodup N).filter _
  have hmemA : valPN a ∈ (solvedVals N).filter (fun v => planePN cv v axis = true) := by
    rw [Multiset.mem_filter]
    constructor
    · rw [← hGI]
      exact Multiset.mem_coe.mpr (List.mem_map_of_mem valPN (List.mem_of_mem_filter ha))
    · exact (List.mem_filter.mp ha).2
  have hmem : pairRot (makeRotationAxis axis c sn) (valPN a) ∈
      (solvedVals N).filter (fun v => planePN cv v axis = true) := by
    have h := Multiset.mem_map_of_mem (pairRot (makeRotationAxis axis c sn)) hmemA
    rwa [active_vals_invariant N axis hax c sn hcs cv] at h
  exact Multiset.count_eq_one_of_mem hnodup hmem

theorem matchedPN_singleton (N : ℕ) (s : List CubeElement) (hGI : valsOf s = solvedVals N)
    (axis : Vec3) (hax : axis ∈ unitAxes) (c sn : ℤ) (hcs : (c, sn) ∈ quarterPairs)
    (cv : Vec3 × Vec3) (a : CubeElement)
    (ha : a ∈ s.filter (fun e => planePN cv (valPN e) axis)) :
    matchedPN (s.filter (fun e => planePN cv (valPN e) axis)) (makeRotationAxis axis c sn) a =
      [(makeRotationAxis axis c sn a.normal, makeRotationAxis axis c sn a.pos)] := by
  have has : a ∈ s := List.mem_of_mem_filter ha
  have hna : a.normal ∈ sixPlaneNormals := GI_normal_canonical N s hGI a has
  have hnra : makeRotationAxis axis c sn a.normal ∈ sixPlaneNormals :=
    rot_canonical axis hax c sn hcs a.normal hna
  have h1 : ∀ b ∈ s.filter (fun e => planePN cv (valPN e) axis),
      ((equalDirection (makeRotationAxis axis c sn a.normal) b.normal &&
          decide (25 * distSq (makeRotationAxis axis c sn a.pos) b.pos < 1)) = true ↔
        valPN b = pairRot (makeRotationAxis axis c sn) (valPN a)) := by
    intro b hb
    have hnb : b.normal ∈ sixPlaneNormals :=
      GI_normal_canonical N s hGI b (List.mem_of_mem_filter hb)
    rw [Bool.and_eq_true, decide_eq_true_eq, equalDirection_six _ _ hnra hnb,
      distSq_small_iff, Prod.ext_iff]
    constructor
    · rintro ⟨hn, hp⟩
      exact ⟨hp.symm, hn.symm⟩
    · rintro ⟨hp, hn⟩
      exact ⟨hn.symm, hp.symm⟩
  have h2 := filter_map_single (pairRot (makeRotationAxis axis c sn) (valPN a))
    (fun b => equalDirection (makeRotationAxis axis c sn a.normal) b.normal &&
      decide (25 * distSq (makeRotationAxis axis c sn a.pos) b.pos < 1))
    (s.filter (fun e => planePN cv (valPN e) axis))
  exact h2 h1 (act_count_one N s hGI axis hax c sn hcs cv a ha)

theorem matched_flatMap_eq_map (N : ℕ) (s : List CubeElement) (hGI : valsOf s = solvedVals N)
    (axis : Vec3) (hax : axis ∈ unitAxes) (c sn : ℤ) (hcs : (c, sn) ∈ quarterPairs)
    (cv : Vec3 × Vec3) :
    (s.filter (fun e => planePN cv (valPN e) axis)).flatMap
        (matchedPN (s.filter (fun e => planePN cv (valPN e) axis))
          (makeRotationAxis axis c sn)) =
      (s.filter (fun e => planePN cv (valPN e) axis)).map
        (fun e => (makeRotationAxis axis c sn e.normal, makeRotationAxis axis c sn e.pos)) :=
  flatMap_singleton_eq_map
    (fun e => (makeRotationAxis axis c sn e.normal, makeRotationAxis axis c sn e.pos))
    (matchedPN (s.filter (fun e => planePN cv (valPN e) axis)) (makeRotationAxis axis c sn))
    (s.filter (fun e => planePN cv (valPN e) axis))
    (fun a ha => matchedPN_singleton N s hGI axis hax c sn hcs cv a ha)

theorem updateStateAfterRotate_spec (N : ℕ) (s : List CubeElement)
    (hGI : valsOf s = solvedVals N) (axis : Vec3) (hax : axis ∈ unitAxes)
    (cv : Vec3 × Vec3) (isActive : CubeElement → Bool)
    (hIA : ∀ e, isActive e = planePN cv (valPN e) axis) (a : ℚ) (m : ℤ)
    (hm : a + getNeededRotateAngle a = (m : ℚ)) :
    updateStateAfterRotate s isActive axis a =
      some (turnResult (makeRotationAxis axis (qcosInt m) (qsinInt m)) isActive s) := by
  have hIA' : isActive = fun e => planePN cv (valPN e) axis := funext hIA
  subst hIA'
  rw [updateStateAfterRotate_eq, hm, jsMod_intCast_four]
  have hcs := qcs_mem_quarterPairs m
  have hCS : angleCS ((Int.tmod m 4 : ℤ) : ℚ) = (qcosInt m, qsinInt m) := by
    rw [angleCS_intCast, (qcs_tmod m).1, (qcs_tmod m).2]
  have hb := tmod_four_facts m
  by_cases hz : Int.tmod m 4 = 0
  · have htol : overAngleTolerance ((Int.tmod m 4 : ℤ) : ℚ) = false := by
      rw [hz]
      unfold overAngleTolerance
      rw [decide_eq_false_iff_not]
      push_cast
      norm_num
    rw [htol]
    rw [if_neg Bool.false_ne_true]
    have hm4 : m % 4 = 0 := hb.2.2.2.mp hz
    have hrot : ∀ v, makeRotationAxis axis (qcosInt m) (qsinInt m) v = v := by
      intro v
      have hqc : qcosInt m = 1 := by unfold qcosInt; rw [if_pos hm4]
      have hqs : qsinInt m = 0 := by
        unfold qsinInt
        rw [if_neg (by omega), if_neg (by omega)]
      rw [hqc, hqs]
      exact rot_id axis v
    have hpt : ∀ e ∈ s, (if planePN cv (valPN e) axis = true
        then rotatedElement (makeRotationAxis axis (qcosInt m) (qsinInt m)) e else e) = id e := by
      intro e _
      split
      · unfold rotatedElement
        simp only [hrot]
        rfl
      · rfl
    have ht : turnResult (makeRotationAxis axis (qcosInt m) (qsinInt m))
        (fun e => planePN cv (valPN e) axis) s = s := by
      unfold turnResult
      rw [List.map_congr_left hpt, List.map_id]
    rw [ht]
  · have htol : overAngleTolerance ((Int.tmod m 4 : ℤ) : ℚ) = true :=
      (overAngleTolerance_int (Int.tmod m 4) hb.1 hb.2.1).mpr hz
    rw [htol, if_pos rfl, hCS]
    show assignPN s (fun e => planePN cv (valPN e) axis)
        ((s.filter (fun e => planePN cv (valPN e) axis)).flatMap
          (matchedPN (s.filter (fun e => planePN cv (valPN e) axis))
            (makeRotationAxis axis (qcosInt m) (qsinInt m)))) = _
    rw [matched_flatMap_eq_map N s hGI axis hax (qcosInt m) (qsinInt m) hcs cv]
    rw [assignPN_spec (fun e => planePN cv (valPN e) axis)
      (fun e => (makeRotationAxis axis (qcosInt m) (qsinInt m) e.normal,
        makeRotationAxis axis (qcosInt m) (qsinInt m) e.pos)) s]
    rfl

theorem valsOf_turnResult (N : ℕ) (s : List CubeElement) (hGI : valsOf s = solvedVals N)
    (axis : Vec3) (hax : axis ∈ unitAxes) (c sn : ℤ) (hcs : (c, sn) ∈ quarterPairs)
    (cv : Vec3 × Vec3) :
    valsOf (turnResult (makeRotationAxis axis c sn)
        (fun e => planePN cv (valPN e) axis) s) = solvedVals N := by
  have hstep : valsOf (turnResult (makeRotationAxis axis c sn)
      (fun e => planePN cv (valPN e) axis) s) =
      Multiset.map (fun v => if planePN cv v axis = true
        then pairRot (makeRotationAxis axis c sn) v else v) (valsOf s) := by
    show (((turnResult (makeRotationAxis axis c sn)
        (fun e => planePN cv (valPN e) axis) s).map valPN : List (Vec3 × Vec3)) :
        Multiset (Vec3 × Vec3)) = _
    unfold turnResult
    rw [List.map_map]
    have hfun : (valPN ∘ fun e => if planePN cv (valPN e) axis = true
        then rotatedElement (makeRotationAxis axis c sn) e else e) =
        ((fun v => if planePN cv v axis = true
          then pairRot (makeRotationAxis axis c sn) v else v) ∘ valPN) := by
      funext e
      by_cases h : planePN cv (valPN e) axis = true
      · simp only [Function.comp_apply, if_pos h]
        rfl
      · simp only [Function.comp_apply, if_neg h]
    rw [hfun, ← List.map_map]
    rfl
  rw [hstep, hGI]
  have hsplit := Multiset.filter_add_not (fun v => planePN cv v axis = true) (solvedVals N)
  conv_lhs => rw [← hsplit]
  conv_rhs => rw [← hsplit]
  rw [Multiset.map_add]
  congr 1
  · have h1 : Multiset.map (fun v => if planePN cv v axis = true
        then pairRot (makeRotationAxis axis c sn) v else v)
        ((solvedVals N).filter (fun v => planePN cv v axis = true)) =
        Multiset.map (pairRot (makeRotationAxis axis c sn))
          ((solvedVals N).filter (fun v => planePN cv v axis = true)) :=
      Multiset.map_congr rfl (fun v hv => if_pos (Multiset.mem_filter.mp hv).2)
    rw [h1]
    exact active_vals_invariant N axis hax c sn hcs cv
  · have h2 : Multiset.map (fun v => if planePN cv v axis = true
        then pairRot (makeRotationAxis axis c sn) v else v)
        ((solvedVals N).filter (fun v => ¬planePN cv v axis = true)) =
        Multiset.map id
          ((solvedVals N).filter (fun v => ¬planePN cv v axis = true)) :=
      Multiset.map_congr rfl (fun v hv => if_neg (Multiset.mem_filter.mp hv).2)
    rw [h2, Multiset.map_id]

theorem zip_recolor_valPN :
    ∀ (l : List CubeElement) (cs : List String), l.length = cs.length →
      ((l.zip cs).map (fun ec => { ec.1 with color := ec.2 })).map valPN = l.map valPN := by
  intro l
  induction l with
  | nil => intro cs _; rfl
  | cons e rest ih =>
    intro cs hlen
    cases cs with
    | nil => simp at hlen
    | cons c ct =>
      simp only [List.zip_cons_cons, List.map_cons]
      rw [ih ct (by simpa using hlen)]
      rfl

theorem valsOf_disorder (s : List CubeElement) (js : ℕ → ℕ) :
    valsOf (disorder s js) = valsOf s := by
  have hlen : s.length = (fisherYates js (s.map (fun e => e.color))
      ((s.map (fun e => e.color)).length - 1)).length := by
    rw [fisherYates_length]
    simp
  have h := zip_recolor_valPN s (fisherYates js (s.map (fun e => e.color))
    ((s.map (fun e => e.color)).length - 1)) hlen
  exact congrArg (fun l : List (Vec3 × Vec3) => (l : Multiset (Vec3 × Vec3))) h

theorem finishDragRotate_some (s : List CubeElement) (ci : ℕ) (axis : Vec3) (a : ℚ)
    (control : CubeElement) (hc : s[ci]? = some control) :
    finishDragRotate s ci axis a =
      updateStateAfterRotate s (fun sq => inRotatePlane control sq axis) axis a := by
  unfold finishDragRotate
  rw [hc]

theorem finishDragRotate_none (s : List CubeElement) (ci : ℕ) (axis : Vec3) (a : ℚ)
    (hc : s[ci]? = none) : finishDragRotate s ci axis a = none := by
  unfold finishDragRotate
  rw [hc]

theorem rotatePlane2_some (s : List CubeElement) (ci : ℕ) (axis : Vec3) (angle90 : ℤ)
    (control : CubeElement) (hc : s[ci]? = some control) :
    rotatePlane2 s ci axis angle90 =
      updateStateAfterRotate s (fun sq => inRotatePlane control sq axis) axis
        ((angle90 : ℤ) : ℚ) := by
  unfold rotatePlane2
  rw [hc]

theorem rotatePlane2_step (N : ℕ) (s : List CubeElement) (hGI : valsOf s = solvedVals N)
    (ci : ℕ) (control : CubeElement) (hc : s[ci]? = some control) (axis : Vec3)
    (hax : axis ∈ unitAxes) (k : ℤ) :
    rotatePlane2 s ci axis k =
      some (turnResult (makeRotationAxis axis (qcosInt k) (qsinInt k))
        (fun sq => inRotatePlane control sq axis) s) := by
  rw [rotatePlane2_some s ci axis k control hc]
  exact updateStateAfterRotate_spec N s hGI axis hax (valPN control)
    (fun sq => inRotatePlane control sq axis) (fun e => rfl) ((k : ℤ) : ℚ) k
    (by rw [getNeededRotateAngle_intCast]; ring)

theorem reachable_vals (N : ℕ) (s : List CubeElement) (h : Reachable N s) :
    valsOf s = solvedVals N := by
  induction h with
  | start => rfl
  | @turn s' t ci axis a hr hax hfin ih =>
    cases hc : s'[ci]? with
    | none =>
      rw [finishDragRotate_none s' ci axis a hc] at hfin
      exact Option.noConfusion hfin
    | some control =>
      obtain ⟨m, hm⟩ := total_angle_int a
      rw [finishDragRotate_some s' ci axis a control hc,
        updateStateAfterRotate_spec N s' ih axis hax (valPN control)
          (fun sq => inRotatePlane control sq axis) (fun e => rfl) a m hm] at hfin
      rw [← Option.some_inj.mp hfin]
      exact valsOf_turnResult N s' ih axis hax (qcosInt m) (qsinInt m)
        (qcs_mem_quarterPairs m) (valPN control)
  | @shuffle s' js hr ih =>
    rw [valsOf_disorder]
    exact ih

/-- C1: for an order-N puzzle, every state reachable from the solved layout of
initialFinishData through completed operations (instant quarter turns, snapped
drag turns finalized by updateStateAfterRotate, disorder color shuffles) has
exactly 6·N² facelets, and the facelets are partitioned by normal vector into
exactly six groups of N² each, one per canonical axis-aligned unit normal. -/
theorem C1_facelet_partition (N : ℕ) (s : List CubeElement) (hs : Reachable N s) :
    s.length = 6 * N ^ 2 ∧ (∀ e ∈ s, e.normal ∈ sixPlaneNormals) ∧
      ∀ n ∈ sixPlaneNormals,
        (s.filter (fun e => decide (e.normal = n))).length = N ^ 2 := by
  have hGI := reachable_vals N s hs
  refine ⟨?_, GI_normal_canonical N s hGI, ?_⟩
  · have hcard := congrArg Multiset.card hGI
    simpa [valsOf, solvedVals, initialFinishData_length] using hcard
  · intro n hn
    have h1 : (s.filter (fun e => decide (e.normal = n))).length =
        List.countP (fun v => decide (v.2 = n)) (s.map valPN) := by
      rw [List.countP_map, ← List.countP_eq_length_filter]
      rfl
    have h2 := congrArg (Multiset.countP (fun v : Vec3 × Vec3 => v.2 = n)) hGI
    have h3 : List.countP (fun v : Vec3 × Vec3 => decide (v.2 = n)) (s.map valPN) =
        List.countP (fun v : Vec3 × Vec3 => decide (v.2 = n))
          ((initialFinishData N defaultColors).map valPN) := h2
    rw [h1, h3]
    exact solved_countP_normal N n hn

theorem C1_facelet_partition_witness :
    (initialFinishData 3 defaultColors).length = 6 * 3 ^ 2 ∧
      (∀ e ∈ initialFinishData 3 defaultColors, e.normal ∈ sixPlaneNormals) ∧
      ∀ n ∈ sixPlaneNormals,
        ((initialFinishData 3 defaultColors).filter
          (fun e => decide (e.normal = n))).length = 3 ^ 2 :=
  C1_facelet_partition 3 (initialFinishData 3 defaultColors) Reachable.start

theorem inRotatePlane_self (control : CubeElement) (axis : Vec3) :
    inRotatePlane control control axis = true := by
  unfold inRotatePlane
  rw [Vec3_sub_self]
  simp [dotV]

theorem turnResult_getElem (rot : Vec3 → Vec3) (P : CubeElement → Bool)
    (s : List CubeElement) (ci : ℕ) (control : CubeElement) (hc : s[ci]? = some control)
    (hP : P control = true) :
    (turnResult rot P s)[ci]? = some (rotatedElement rot control) := by
  unfold turnResult
  rw [List.getElem?_map, hc]
  show some (if P control = true then rotatedElement rot control else control) = _
  rw [if_pos hP]

theorem turnResult_congr (rot : Vec3 → Vec3) (P Q : CubeElement → Bool)
    (h : ∀ e, P e = Q e) (s : List CubeElement) :
    turnResult rot P s = turnResult rot Q s := by
  unfold turnResult
  exact List.map_congr_left (fun e _ => by rw [h e])

theorem turnResult_comp (R1 R2 : Vec3 → Vec3) (P : CubeElement → Bool)
    (s : List CubeElement) (hP : ∀ e ∈ s, P e = true → P (rotatedElement R1 e) = true) :
    turnResult R2 P (turnResult R1 P s) = turnResult (fun v => R2 (R1 v)) P s := by
  unfold turnResult
  rw [List.map_map]
  refine List.map_congr_left ?_
  intro e he
  by_cases h : P e = true
  · show (if P (if P e = true then rotatedElement R1 e else e) = true
        then rotatedElement R2 (if P e = true then rotatedElement R1 e else e)
        else (if P e = true then rotatedElement R1 e else e)) = _
    rw [if_pos h, if_pos (hP e he h), if_pos h]
    rfl
  · show (if P (if P e = true then rotatedElement R1 e else e) = true
        then rotatedElement R2 (if P e = true then rotatedElement R1 e else e)
        else (if P e = true then rotatedElement R1 e else e)) = _
    rw [if_neg h, if_neg h, if_neg h]

theorem turnResult_rot4 (axis : Vec3) (hax : axis ∈ unitAxes) (P : CubeElement → Bool)
    (s : List CubeElement) :
    turnResult (fun v => makeRotationAxis axis 0 1 (makeRotationAxis axis 0 1
      (makeRotationAxis axis 0 1 (makeRotationAxis axis 0 1 v)))) P s = s := by
  unfold turnResult
  have hpt : ∀ e ∈ s, (if P e = true
      then rotatedElement (fun v => makeRotationAxis axis 0 1 (makeRotationAxis axis 0 1
        (makeRotationAxis axis 0 1 (makeRotationAxis axis 0 1 v)))) e else e) = id e := by
    intro e _
    split
    · unfold rotatedElement
      simp only [rot_four axis hax]
      rfl
    · rfl
  rw [List.map_congr_left hpt, List.map_id]

/-- C2: on an order-3 puzzle in any reachable state, for every pivot square and
every coordinate-axis rotation axis, applying the instant quarter turn
rotatePlane2 with the same pivot and axis four times in succession returns
every facelet (position, normal and color) to its value before the first
turn. -/
theorem C2_four_turn_identity (s : List CubeElement) (hs : Reachable 3 s) (ci : ℕ)
    (hci : ci < s.length) (axis : Vec3) (hax : axis ∈ unitAxes) :
    (rotatePlane2 s ci axis 1).bind (fun s1 =>
      (rotatePlane2 s1 ci axis 1).bind (fun s2 =>
        (rotatePlane2 s2 ci axis 1).bind (fun s3 =>
          rotatePlane2 s3 ci axis 1))) = some s := by
  have hGI := reachable_vals 3 s hs
  have hc : s[ci]? = some s[ci] := List.getElem?_eq_getElem hci
  generalize hctl : s[ci] = control at hc
  have h0 : qcosInt 1 = 0 := by decide
  have h1 : qsinInt 1 = 1 := by decide
  have hcs01 : ((0 : ℤ), (1 : ℤ)) ∈ quarterPairs := by decide
  have hcn : control.normal ∈ sixPlaneNormals :=
    GI_normal_canonical 3 s hGI control (List.getElem?_mem hc)
  have hself : inRotatePlane control control axis = true := inRotatePlane_self control axis
  have hPrE : ∀ e' : CubeElement, e'.normal ∈ sixPlaneNormals →
      inRotatePlane control (rotatedElement (makeRotationAxis axis 0 1) e') axis =
        inRotatePlane control e' axis :=
    fun e' hne => planePN_pairRot (valPN control) axis hax 0 1 hcs01 (valPN e') hne
  have hcn1 : (rotatedElement (makeRotationAxis axis 0 1) control).normal ∈ sixPlaneNormals :=
    rot_canonical axis hax 0 1 hcs01 control.normal hcn
  have hcn2 : (rotatedElement (makeRotationAxis axis 0 1)
      (rotatedElement (makeRotationAxis axis 0 1) control)).normal ∈ sixPlaneNormals :=
    rot_canonical axis hax 0 1 hcs01
      ((rotatedElement (makeRotationAxis axis 0 1) control).normal) hcn1
  have hP1 : ∀ sq, inRotatePlane (rotatedElement (makeRotationAxis axis 0 1) control) sq axis =
      inRotatePlane control sq axis :=
    fun sq => planePN_rotControl (valPN control) hcn axis hax 0 1 hcs01 (valPN sq)
  have hP2 : ∀ sq, inRotatePlane (rotatedElement (fun v => makeRotationAxis axis 0 1
      (makeRotationAxis axis 0 1 v)) control) sq axis = inRotatePlane control sq axis :=
    fun sq => (planePN_rotControl (pairRot (makeRotationAxis axis 0 1) (valPN control)) hcn1
      axis hax 0 1 hcs01 (valPN sq)).trans (hP1 sq)
  have hP3 : ∀ sq, inRotatePlane (rotatedElement (fun v => makeRotationAxis axis 0 1
      (makeRotationAxis axis 0 1 (makeRotationAxis axis 0 1 v))) control) sq axis =
      inRotatePlane control sq axis :=
    fun sq => (planePN_rotControl (pairRot (makeRotationAxis axis 0 1)
      (pairRot (makeRotationAxis axis 0 1) (valPN control))) hcn2
      axis hax 0 1 hcs01 (valPN sq)).trans (hP2 sq)
  have hcomp1 : ∀ e ∈ s, (fun sq => inRotatePlane control sq axis) e = true →
      (fun sq => inRotatePlane control sq axis)
        (rotatedElement (makeRotationAxis axis 0 1) e) = true :=
    fun e he hPe => (hPrE e (GI_normal_canonical 3 s hGI e he)).trans hPe
  have hcomp2 : ∀ e ∈ s, (fun sq => inRotatePlane control sq axis) e = true →
      (fun sq => inRotatePlane control sq axis)
        (rotatedElement (fun v => makeRotationAxis axis 0 1
          (makeRotationAxis axis 0 1 v)) e) = true := by
    intro e he hPe
    have hne := GI_normal_canonical 3 s hGI e he
    have hne1 : (rotatedElement (makeRotationAxis axis 0 1) e).normal ∈ sixPlaneNormals :=
      rot_canonical axis hax 0 1 hcs01 e.normal hne
    exact (hPrE (rotatedElement (makeRotationAxis axis 0 1) e) hne1).trans
      ((hPrE e hne).trans hPe)
  have hcomp3 : ∀ e ∈ s, (fun sq => inRotatePlane control sq axis) e = true →
      (fun sq => inRotatePlane control sq axis)
        (rotatedElement (fun v => makeRotationAxis axis 0 1 (makeRotationAxis axis 0 1
          (makeRotationAxis axis 0 1 v))) e) = true := by
    intro e he hPe
    have hne := GI_normal_canonical 3 s hGI e he
    have hne1 : (rotatedElement (makeRotationAxis axis 0 1) e).normal ∈ sixPlaneNormals :=
      rot_canonical axis hax 0 1 hcs01 e.normal hne
    have hne2 : (rotatedElement (makeRotationAxis axis 0 1)
        (rotatedElement (makeRotationAxis axis 0 1) e)).normal ∈ sixPlaneNormals :=
      rot_canonical axis hax 0 1 hcs01
        ((rotatedElement (makeRotationAxis axis 0 1) e).normal) hne1
    exact (hPrE (rotatedElement (makeRotationAxis axis 0 1)
      (rotatedElement (makeRotationAxis axis 0 1) e)) hne2).trans
      ((hPrE (rotatedElement (makeRotationAxis axis 0 1) e) hne1).trans
        ((hPrE e hne).trans hPe))
  have hGI1 : valsOf (turnResult (makeRotationAxis axis 0 1)
      (fun sq => inRotatePlane control sq axis) s) = solvedVals 3 :=
    valsOf_turnResult 3 s hGI axis hax 0 1 hcs01 (valPN control)
  have hGI2 : valsOf (turnResult (fun v => makeRotationAxis axis 0 1
      (makeRotationAxis axis 0 1 v)) (fun sq => inRotatePlane control sq axis) s) =
      solvedVals 3 := by
    rw [show turnResult (fun v => makeRotationAxis axis 0 1 (makeRotationAxis axis 0 1 v))
        (fun sq => inRotatePlane control sq axis) s =
        turnResult (makeRotationAxis axis 0 1) (fun sq => inRotatePlane control sq axis)
          (turnResult (makeRotationAxis axis 0 1)
            (fun sq => inRotatePlane control sq axis) s) from
      (turnResult_comp (makeRotationAxis axis 0 1) (makeRotationAxis axis 0 1)
        (fun sq => inRotatePlane control sq axis) s hcomp1).symm]
    exact valsOf_turnResult 3 _ hGI1 axis hax 0 1 hcs01 (valPN control)
  have hGI3 : valsOf (turnResult (fun v => makeRotationAxis axis 0 1 (makeRotationAxis axis 0 1
      (makeRotationAxis axis 0 1 v))) (fun sq => inRotatePlane control sq axis) s) =
      solvedVals 3 := by
    rw [show turnResult (fun v => makeRotationAxis axis 0 1 (makeRotationAxis axis 0 1
        (makeRotationAxis axis 0 1 v))) (fun sq => inRotatePlane control sq axis) s =
        turnResult (makeRotationAxis axis 0 1) (fun sq => inRotatePlane control sq axis)
          (turnResult (fun v => makeRotationAxis axis 0 1 (makeRotationAxis axis 0 1 v))
            (fun sq => inRotatePlane control sq axis) s) from
      (turnResult_comp (fun v => makeRotationAxis axis 0 1 (makeRotationAxis axis 0 1 v))
        (makeRotationAxis axis 0 1)
        (fun sq => inRotatePlane control sq axis) s hcomp2).symm]
    exact valsOf_turnResult 3 _ hGI2 axis hax 0 1 hcs01 (valPN control)
  have hc1 := turnResult_getElem (makeRotationAxis axis 0 1)
    (fun sq => inRotatePlane control sq axis) s ci control hc hself
  have hc2 := turnResult_getElem (fun v => makeRotationAxis axis 0 1
    (makeRotationAxis axis 0 1 v)) (fun sq => inRotatePlane control sq axis) s ci control
    hc hself
  have hc3 := turnResult_getElem (fun v => makeRotationAxis axis 0 1 (makeRotationAxis axis 0 1
    (makeRotationAxis axis 0 1 v))) (fun sq => inRotatePlane control sq axis) s ci control
    hc hself
  have e1 : rotatePlane2 s ci axis 1 = some (turnResult (makeRotationAxis axis 0 1)
      (fun sq => inRotatePlane control sq axis) s) := by
    have h := rotatePlane2_step 3 s hGI ci control hc axis hax 1
    rw [h0, h1] at h
    exact h
  have e2 : rotatePlane2 (turnResult (makeRotationAxis axis 0 1)
      (fun sq => inRotatePlane control sq axis) s) ci axis 1 =
      some (turnResult (fun v => makeRotationAxis axis 0 1 (makeRotationAxis axis 0 1 v))
        (fun sq => inRotatePlane control sq axis) s) := by
    have h := rotatePlane2_step 3 _ hGI1 ci _ hc1 axis hax 1
    rw [h0, h1] at h
    rw [h]
    congr 1
    rw [turnResult_congr (makeRotationAxis axis 0 1) _ _ hP1
      (turnResult (makeRotationAxis axis 0 1) (fun sq => inRotatePlane control sq axis) s)]
    exact turnResult_comp (makeRotationAxis axis 0 1) (makeRotationAxis axis 0 1)
      (fun sq => inRotatePlane control sq axis) s hcomp1
  have e3 : rotatePlane2 (turnResult (fun v => makeRotationAxis axis 0 1
      (makeRotationAxis axis 0 1 v)) (fun sq => inRotatePlane control sq axis) s) ci axis 1 =
      some (turnResult (fun v => makeRotationAxis axis 0 1 (makeRotationAxis axis 0 1
        (makeRotationAxis axis 0 1 v))) (fun sq => inRotatePlane control sq axis) s) := by
    have h := rotatePlane2_step 3 _ hGI2 ci _ hc2 axis hax 1
    rw [h0, h1] at h
    rw [h]
    congr 1
    rw [turnResult_congr (makeRotationAxis axis 0 1) _ _ hP2
      (turnResult (fun v => makeRotationAxis axis 0 1 (makeRotationAxis axis 0 1 v))
        (fun sq => inRotatePlane control sq axis) s)]
    exact turnResult_comp (fun v => makeRotationAxis axis 0 1 (makeRotationAxis axis 0 1 v))
      (makeRotationAxis axis 0 1) (fun sq => inRotatePlane control sq axis) s hcomp2
  have e4 : rotatePlane2 (turnResult (fun v => makeRotationAxis axis 0 1
      (makeRotationAxis axis 0 1 (makeRotationAxis axis 0 1 v)))
      (fun sq => inRotatePlane control sq axis) s) ci axis 1 =
      some (turnResult (fun v => makeRotationAxis axis 0 1 (makeRotationAxis axis 0 1
        (makeRotationAxis axis 0 1 (makeRotationAxis axis 0 1 v))))
        (fun sq => inRotatePlane control sq axis) s) := by
    have h := rotatePlane2_step 3 _ hGI3 ci _ hc3 axis hax 1
    rw [h0, h1] at h
    rw [h]
    congr 1
    rw [turnResult_congr (makeRotationAxis axis 0 1) _ _ hP3
      (turnResult (fun v => makeRotationAxis axis 0 1 (makeRotationAxis axis 0 1
        (makeRotationAxis axis 0 1 v))) (fun sq => inRotatePlane control sq axis) s)]
    exact turnResult_comp (fun v => makeRotationAxis axis 0 1 (makeRotationAxis axis 0 1
      (makeRotationAxis axis 0 1 v))) (makeRotationAxis axis 0 1)
      (fun sq => inRotatePlane control sq axis) s hcomp3
  rw [e1]
  simp only [Option.some_bind']
  rw [e2]
  simp only [Option.some_bind']
  rw [e3]
  simp only [Option.some_bind']
  rw [e4, turnResult_rot4 axis hax (fun sq => inRotatePlane control sq axis) s]

theorem C2_four_turn_identity_witness :
    (rotatePlane2 (initialFinishData 3 defaultColors) 0 ⟨0, 1, 0⟩ 1).bind (fun s1 =>
      (rotatePlane2 s1 0 ⟨0, 1, 0⟩ 1).bind (fun s2 =>
        (rotatePlane2 s2 0 ⟨0, 1, 0⟩ 1).bind (fun s3 =>
          rotatePlane2 s3 0 ⟨0, 1, 0⟩ 1))) = some (initialFinishData 3 defaultColors) :=
  C2_four_turn_identity (initialFinishData 3 defaultColors) Reachable.start 0
    (by rw [initialFinishData_length]; norm_num) ⟨0, 1, 0⟩ (by decide)

/-- C10: a completed turn through rotatePlane2 leaves each facelet outside the
selected slice entirely unchanged: whenever the call succeeds, every square for
which the inRotatePlane test against the control square fails keeps exactly its
previous record (color, position, normal and logo flag) at its previous
index. -/
theorem C10_rotatePlane2_frame (s : List CubeElement) (ci : ℕ) (axis : Vec3)
    (angle90 : ℤ) (t : List CubeElement) (ht : rotatePlane2 s ci axis angle90 = some t)
    (control : CubeElement) (hc : s[ci]? = some control)
    (i : ℕ) (e : CubeElement) (he : s[i]? = some e)
    (hout : inRotatePlane control e axis = false) :
    t[i]? = some e := by
  rw [rotatePlane2_some s ci axis angle90 control hc, updateStateAfterRotate_eq] at ht
  by_cases htol : overAngleTolerance
      (jsMod (((angle90 : ℤ) : ℚ) + getNeededRotateAngle ((angle90 : ℤ) : ℚ)) 4) = true
  · rw [if_pos htol] at ht
    exact assignPN_nonactive (fun sq => inRotatePlane control sq axis) s _ t ht i e he hout
  · rw [if_neg htol] at ht
    rw [← Option.some_inj.mp ht]
    exact he

theorem C10_rotatePlane2_frame_witness :
    (turnResult (makeRotationAxis ⟨0, 1, 0⟩ (qcosInt 1) (qsinInt 1))
        (fun sq => inRotatePlane ⟨"#FF0000", ⟨-2, 3, -2⟩, ⟨0, 1, 0⟩, false⟩ sq ⟨0, 1, 0⟩)
        (initialFinishData 3 defaultColors))[1]? =
      some ⟨"#FFA500", ⟨-2, -3, -2⟩, ⟨0, -1, 0⟩, false⟩ :=
  C10_rotatePlane2_frame (initialFinishData 3 defaultColors) 0 ⟨0, 1, 0⟩ 1 _
    (rotatePlane2_step 3 (initialFinishData 3 defaultColors) rfl 0
      ⟨"#FF0000", ⟨-2, 3, -2⟩, ⟨0, 1, 0⟩, false⟩ (by decide) ⟨0, 1, 0⟩ (by decide) 1)
    ⟨"#FF0000", ⟨-2, 3, -2⟩, ⟨0, 1, 0⟩, false⟩ (by decide) 1
    ⟨"#FFA500", ⟨-2, -3, -2⟩, ⟨0, -1, 0⟩, false⟩ (by decide) (by decide)
